import Mathlib

/-!
# Astrochem, `src/rates.c`: the reaction-rate dispatcher

A shallow embedding of the C function `rate` and a verification of its
documented properties.  The function is embedded twice, branch for branch from
the same source.

## Modelling conventions

* `Rates.rate` reads a C `double` as a real number (`ℝ`): arithmetic is exact,
  there is no rounding, overflow, infinity or NaN.  `pow` is the real power
  function, `exp` the real exponential and `M_PI` the number π.  On the inputs
  where the C library functions are defined as real functions (positive base
  for `pow`, non-zero divisors) the model computes the mathematical value the
  C code approximates.  Outside of that domain the model takes Mathlib's total
  functions (`x / 0 = 0`, `Real.rpow` on negative bases); statements that are
  meant to speak about the C code carry the hypotheses that keep them inside
  the domain.  This embedding serves the statements on which formula a branch
  evaluates and which arguments it reads, and the order statements whose
  hypotheses keep every intermediate result inside the range of a `double`.
* `Rates.IEEE.rate` reads a C `double` as an IEEE-754 binary64 datum
  (`Rates.IEEE.Double`): a NaN, a signed infinity, or a sign bit and a
  magnitude; `*` and `/` round to nearest, ties to even, overflow to an
  infinity and underflow to zero.  `pow` and `exp` are functions of the C
  library, taken as a parameter (`Libm`); `crlibm` is the instance whose
  functions are correctly rounded.  This embedding serves the statements that
  depend on signs, zeros, infinities, NaNs, overflow or underflow.
* A C `int` (`reaction_type`, `reaction_no`) is an `Int`.
* The `default:` branch of the `switch` prints a diagnostic and calls
  `exit (1)`: no value is returned.  It is modelled as the error result
  `RateError.unknownReactionType`; a returned `double` is `Except.ok`.
* `CONST_CGSM_BOLTZMANN` and `CONST_CGSM_MASS_PROTON` are macros of
  `astrochem.h`, which is not among the sources at hand.  They are taken as
  parameters (`PhysConst`); theorems that need their sign say so.
-/

set_option linter.unusedVariables false

namespace Rates

/-! ## Constants -/

/-- The two macros that `rates.c` takes from the header `astrochem.h`. -/
structure PhysConst where
  /-- Boltzmann constant, CGS units. -/
  CONST_CGSM_BOLTZMANN : ℝ
  /-- Proton mass, CGS units. -/
  CONST_CGSM_MASS_PROTON : ℝ

/-- Sample values for the header constants (the CGS values of the Boltzmann
constant and of the proton mass), used to instantiate theorems at concrete
inputs. -/
def cgs : PhysConst := ⟨1.3806504e-16, 1.67262158e-24⟩

/-- Macro `FRACTION_TIME_GRAIN_70K`, defined as `3.16e-19`. -/
def FRACTION_TIME_GRAIN_70K : ℝ := 3.16e-19

/-- Macro `GAS_DUST_NUMBER_RATIO`, defined as `7.57e+11`. -/
def GAS_DUST_NUMBER_RATIO : ℝ := 7.57e+11

/-- Macro `NUMBER_SITE_PER_GRAIN_SURFACE`, defined as `3.00e+15`. -/
def NUMBER_SITE_PER_GRAIN_SURFACE : ℝ := 3.00e+15

/-- The constant `M_PI` of `math.h`. -/
noncomputable def M_PI : ℝ := Real.pi

/-- The function `pow` of `math.h`, on the reals. -/
noncomputable def pow (x y : ℝ) : ℝ := x ^ y

/-- The function `exp` of `math.h`, on the reals. -/
noncomputable def exp (x : ℝ) : ℝ := Real.exp x

/-! ## The function `rate` -/

/-- The only way `rate` does not return: the `default:` branch of its
`switch` ("unknown reaction type.", then `exit (1)`). -/
inductive RateError where
  | unknownReactionType
  deriving DecidableEq

/-- The function `rate` of `rates.c`.  The local variable `k` of the C code is
assigned in each branch of the `switch` and returned after it; branches 21 and
22 assign it twice, as the source does. -/
noncomputable def rate (c : PhysConst) (alpha beta gamm : ℝ) (reaction_type : Int)
    (reaction_no : Int) (av tgas tdust chi cosmic grain_size : ℝ) :
    Except RateError ℝ :=
  match reaction_type with
  | 0 =>
    let k := alpha * pow (tgas / 300) beta * GAS_DUST_NUMBER_RATIO
    .ok k
  | 1 =>
    let k := alpha * cosmic
    .ok k
  | 2 | 3 | 4 | 5 | 6 | 7 | 8 | 9 | 10 | 11 | 12 | 14 =>
    let k := alpha * pow (tgas / 300) beta * exp (-gamm / tgas)
    .ok k
  | 13 =>
    let k := chi * alpha * exp (-gamm * av)
    .ok k
  | 20 =>
    let thermal_veloc :=
      pow (8 * c.CONST_CGSM_BOLTZMANN * tgas
           / (M_PI * beta * c.CONST_CGSM_MASS_PROTON))
          0.5
    let k := M_PI * pow grain_size 2 * alpha * thermal_veloc
    .ok k
  | 21 =>
    let v0 :=
      pow (2 * NUMBER_SITE_PER_GRAIN_SURFACE * gamm * c.CONST_CGSM_BOLTZMANN
           / (M_PI * M_PI * beta * c.CONST_CGSM_MASS_PROTON))
          0.5
    let k := v0 * exp (-gamm / tdust)
    let k := 0
    .ok k
  | 22 =>
    let v0 :=
      pow (2 * NUMBER_SITE_PER_GRAIN_SURFACE * gamm * c.CONST_CGSM_BOLTZMANN
           / (M_PI * M_PI * beta * c.CONST_CGSM_MASS_PROTON))
          0.5
    let k := v0 * FRACTION_TIME_GRAIN_70K * exp (-gamm / 70)
    let k := 0
    .ok k
  | 23 =>
    let k := chi * exp (-2 * av) * alpha * M_PI * pow grain_size 2
    .ok k
  | _ => .error .unknownReactionType

/-! ## The function `rate` in IEEE-754 binary64 arithmetic

A second embedding of the same source, in which a C `double` is a binary64
datum: every `*` and `/` rounds its exact result to nearest, ties to even,
overflows to an infinity and underflows through the subnormal numbers to zero,
and invalid operations give a NaN.  The functions `pow` and `exp` belong to the
C library, whose rounding the C standard leaves to the implementation; they are
a parameter (`Libm`), and theorems state the properties of it that they use.
-/

namespace IEEE

/-- Round to the nearest integer, ties to even. -/
noncomputable def rne (r : ℝ) : ℤ :=
  if r - ⌊r⌋ < 1 / 2 then ⌊r⌋
  else if 1 / 2 < r - ⌊r⌋ then ⌊r⌋ + 1
  else if ⌊r⌋ % 2 = 0 then ⌊r⌋ else ⌊r⌋ + 1

/-- Unit in the last place of a binary64 number of magnitude `q`: 52 binary
places below its leading bit, and `2^-1074` in the subnormal range. -/
noncomputable def ulp (q : ℝ) : ℝ := (2 : ℝ) ^ (max (Int.log 2 q) (-1022) - 52)

/-- The magnitude `q ≥ 0` rounded to 53 significant bits (no upper limit on the
exponent: `round` handles overflow). -/
noncomputable def roundMag (q : ℝ) : ℝ := rne (q / ulp q) * ulp q

/-- The largest finite binary64 number, `(2^53 - 1) * 2^971`. -/
def DBL_MAX : ℝ := (2 ^ 53 - 1) * 2 ^ 971

/-- A magnitude that a binary64 datum can hold. -/
def IsRepr (m : ℝ) : Prop :=
  ∃ n e : ℤ, 0 ≤ n ∧ n < 2 ^ 53 ∧ -1022 ≤ e ∧ m = (n : ℝ) * (2 : ℝ) ^ (e - 52)

/-- An IEEE-754 binary64 datum: a NaN, an infinity with its sign, or a finite
number given by its sign bit and its magnitude (`fin true 0` is `-0`).  The
magnitude of a datum is non-negative. -/
inductive Double where
  | nan
  | inf (neg : Bool)
  | fin (neg : Bool) (mag : ℝ)

namespace Double

/-- The datum for an exact result of sign `neg` and magnitude `q`: rounded to
nearest, an infinity when the rounded magnitude exceeds `DBL_MAX`. -/
noncomputable def round (neg : Bool) (q : ℝ) : Double :=
  if roundMag q ≤ DBL_MAX then fin neg (roundMag q) else inf neg

/-- The product `x * y` of two doubles. -/
noncomputable def mul : Double → Double → Double
  | nan, _ => nan
  | _, nan => nan
  | inf s, inf t => inf (xor s t)
  | inf s, fin t n => if n = 0 then nan else inf (xor s t)
  | fin s m, inf t => if m = 0 then nan else inf (xor s t)
  | fin s m, fin t n => round (xor s t) (m * n)

/-- The quotient `x / y` of two doubles. -/
noncomputable def div : Double → Double → Double
  | nan, _ => nan
  | _, nan => nan
  | inf _, inf _ => nan
  | inf s, fin t _ => inf (xor s t)
  | fin s _, inf t => fin (xor s t) 0
  | fin s m, fin t n =>
    if n = 0 then (if m = 0 then nan else inf (xor s t)) else round (xor s t) (m / n)

/-- The opposite `-x` of a double. -/
def neg : Double → Double
  | nan => nan
  | inf s => inf (!s)
  | fin s m => fin (!s) m

noncomputable instance : Mul Double := ⟨mul⟩

noncomputable instance : Div Double := ⟨div⟩

instance : Neg Double := ⟨neg⟩

/-- An integer constant of the source, converted to `double` (exact for the
constants that occur). -/
instance (n : ℕ) : OfNat Double n := ⟨fin false n⟩

/-- A decimal floating constant of the source: the nearest double. -/
noncomputable instance : OfScientific Double :=
  ⟨fun m s e => round false (OfScientific.ofScientific m s e)⟩

/-- A double that is zero, `+0` or `-0`. -/
def IsZero : Double → Prop
  | fin _ m => m = 0
  | _ => False

/-- A double that compares `≥ 0`: `+0`, `-0`, a positive number or `+∞`. -/
def Nonneg : Double → Prop
  | nan => False
  | inf s => s = false
  | fin s m => 0 ≤ m ∧ (s = true → m = 0)

/-- A double that compares `> 0`: a positive number or `+∞`. -/
def Pos : Double → Prop
  | nan => False
  | inf s => s = false
  | fin s m => s = false ∧ 0 < m

/-- A double whose sign bit is clear: `+0`, a positive number or `+∞`. -/
def SignClear : Double → Prop
  | nan => False
  | inf s => s = false
  | fin s m => s = false ∧ 0 ≤ m

/-- A finite double: its magnitude is a binary64 magnitude within range. -/
def IsFinite : Double → Prop
  | fin _ m => IsRepr m ∧ m ≤ DBL_MAX
  | _ => False

end Double

open Double

/-- The functions of `math.h` that `rates.c` calls. -/
structure Libm where
  /-- The function `exp`. -/
  exp : Double → Double
  /-- The function `pow`. -/
  pow : Double → Double → Double

/-- The sign rules of `exp` and `pow` (C99 Annex F): unless the result is a NaN,
`exp x` is `≥ 0`, `pow (x, y)` is `≥ 0` when `x` is a NaN or has a clear sign
bit, and `pow (x, 2)` is `≥ 0`. -/
def Libm.SignRules (L : Libm) : Prop :=
  (∀ x, L.exp x = nan ∨ (L.exp x).Nonneg) ∧
  (∀ x y, x = nan ∨ x.SignClear → L.pow x y = nan ∨ (L.pow x y).Nonneg) ∧
  (∀ x, L.pow x 2 = nan ∨ (L.pow x 2).Nonneg)

/-- The two macros that `rates.c` takes from the header `astrochem.h`, as
doubles. -/
structure PhysConst where
  /-- Boltzmann constant, CGS units. -/
  CONST_CGSM_BOLTZMANN : Double
  /-- Proton mass, CGS units. -/
  CONST_CGSM_MASS_PROTON : Double

/-- Macro `FRACTION_TIME_GRAIN_70K`, defined as `3.16e-19`. -/
noncomputable def FRACTION_TIME_GRAIN_70K : Double := 3.16e-19

/-- Macro `GAS_DUST_NUMBER_RATIO`, defined as `7.57e+11`. -/
noncomputable def GAS_DUST_NUMBER_RATIO : Double := 7.57e+11

/-- Macro `NUMBER_SITE_PER_GRAIN_SURFACE`, defined as `3.00e+15`. -/
noncomputable def NUMBER_SITE_PER_GRAIN_SURFACE : Double := 3.00e+15

/-- The constant `M_PI` of `math.h`, `3.14159265358979323846`: the nearest
double is `884279719003555 / 2^48`. -/
noncomputable def M_PI : Double := fin false (884279719003555 / 2 ^ 48)

/-- The function `rate` of `rates.c` on doubles; branch for branch the same as
`Rates.rate`, with the arithmetic of `Double` and the library `L`. -/
noncomputable def rate (L : Libm) (c : PhysConst) (alpha beta gamm : Double)
    (reaction_type : Int) (reaction_no : Int)
    (av tgas tdust chi cosmic grain_size : Double) : Except RateError Double :=
  match reaction_type with
  | 0 =>
    let k := alpha * L.pow (tgas / 300) beta * GAS_DUST_NUMBER_RATIO
    .ok k
  | 1 =>
    let k := alpha * cosmic
    .ok k
  | 2 | 3 | 4 | 5 | 6 | 7 | 8 | 9 | 10 | 11 | 12 | 14 =>
    let k := alpha * L.pow (tgas / 300) beta * L.exp (-gamm / tgas)
    .ok k
  | 13 =>
    let k := chi * alpha * L.exp (-gamm * av)
    .ok k
  | 20 =>
    let thermal_veloc :=
      L.pow (8 * c.CONST_CGSM_BOLTZMANN * tgas
             / (M_PI * beta * c.CONST_CGSM_MASS_PROTON))
            0.5
    let k := M_PI * L.pow grain_size 2 * alpha * thermal_veloc
    .ok k
  | 21 =>
    let v0 :=
      L.pow (2 * NUMBER_SITE_PER_GRAIN_SURFACE * gamm * c.CONST_CGSM_BOLTZMANN
             / (M_PI * M_PI * beta * c.CONST_CGSM_MASS_PROTON))
            0.5
    let k := v0 * L.exp (-gamm / tdust)
    let k := 0
    .ok k
  | 22 =>
    let v0 :=
      L.pow (2 * NUMBER_SITE_PER_GRAIN_SURFACE * gamm * c.CONST_CGSM_BOLTZMANN
             / (M_PI * M_PI * beta * c.CONST_CGSM_MASS_PROTON))
            0.5
    let k := v0 * FRACTION_TIME_GRAIN_70K * L.exp (-gamm / 70)
    let k := 0
    .ok k
  | 23 =>
    let k := chi * L.exp (-2 * av) * alpha * M_PI * L.pow grain_size 2
    .ok k
  | _ => .error .unknownReactionType

end IEEE

namespace IEEE

open Double

/-- The signed value of a finite double. -/
def sval (s : Bool) (m : ℝ) : ℝ := if s then -m else m

/-- A correctly rounded `exp`, with the special values of C99 Annex F. -/
noncomputable def crExp : Double → Double
  | nan => nan
  | inf false => inf false
  | inf true => fin false 0
  | fin s m => Double.round false (Real.exp (sval s m))

open Classical in
/-- A correctly rounded `pow`, with the special values of C99 Annex F; `odd`
says that the exponent is an odd integer. -/
noncomputable def crPow (x y : Double) : Double :=
  if y.IsZero then 1
  else if x = 1 then 1
  else
    match x, y with
    | nan, _ => nan
    | _, nan => nan
    | inf s, inf t => if t then fin false 0 else inf false
    | inf s, fin t n =>
      let odd : Bool := decide (∃ k : ℤ, n = 2 * k + 1)
      if t then fin (s && odd) 0 else inf (s && odd)
    | fin s m, inf t =>
      if m = 1 then 1
      else if decide (m < 1) = t then inf false else fin false 0
    | fin s m, fin t n =>
      let odd : Bool := decide (∃ k : ℤ, n = 2 * k + 1)
      if m = 0 then (if t then inf (s && odd) else fin (s && odd) 0)
      else if s = false then Double.round false (m ^ sval t n)
      else if ∃ k : ℤ, n = k then Double.round odd (m ^ sval t n)
      else nan

/-- A C library whose `exp` and `pow` are correctly rounded. -/
noncomputable def crlibm : Libm := ⟨crExp, crPow⟩

/-- Sample values for the header constants (the CGS values of the Boltzmann
constant and of the proton mass, as floating constants), used to instantiate
theorems at concrete inputs. -/
noncomputable def cgs : PhysConst := ⟨1.3806504e-16, 1.67262158e-24⟩

/-- The magnitude of a finite double (and 0 for an infinity or a NaN). -/
def Double.mag : Double → ℝ
  | fin _ m => m
  | _ => 0

/-- The outcomes of `rate_checked` that are not a returned value: the
`default:` branch of the `switch`, or a division whose divisor is zero. -/
inductive CheckedError where
  | unknownReactionType
  | divisionByZero
  deriving DecidableEq

open Classical in
/-- The division `x / y` of two doubles, instrumented: a divisor `+0` or `-0` is
reported instead of producing an infinity or a NaN. -/
noncomputable def checked_div (x y : Double) : Except CheckedError Double :=
  if y.IsZero then .error .divisionByZero else .ok (x / y)

/-- The function `rate` on doubles, instrumented: every `/` of the source is
evaluated by `checked_div`, in the order in which the C expressions evaluate
them; everything else is as in `rate`. -/
noncomputable def rate_checked (L : Libm) (c : PhysConst) (alpha beta gamm : Double)
    (reaction_type : Int) (reaction_no : Int)
    (av tgas tdust chi cosmic grain_size : Double) : Except CheckedError Double :=
  match reaction_type with
  | 0 => do
    let q ← checked_div tgas 300
    let k := alpha * L.pow q beta * GAS_DUST_NUMBER_RATIO
    .ok k
  | 1 =>
    let k := alpha * cosmic
    .ok k
  | 2 | 3 | 4 | 5 | 6 | 7 | 8 | 9 | 10 | 11 | 12 | 14 => do
    let q ← checked_div tgas 300
    let e ← checked_div (-gamm) tgas
    let k := alpha * L.pow q beta * L.exp e
    .ok k
  | 13 =>
    let k := chi * alpha * L.exp (-gamm * av)
    .ok k
  | 20 => do
    let q ← checked_div (8 * c.CONST_CGSM_BOLTZMANN * tgas)
      (M_PI * beta * c.CONST_CGSM_MASS_PROTON)
    let thermal_veloc := L.pow q 0.5
    let k := M_PI * L.pow grain_size 2 * alpha * thermal_veloc
    .ok k
  | 21 => do
    let q ← checked_div
      (2 * NUMBER_SITE_PER_GRAIN_SURFACE * gamm * c.CONST_CGSM_BOLTZMANN)
      (M_PI * M_PI * beta * c.CONST_CGSM_MASS_PROTON)
    let v0 := L.pow q 0.5
    let e ← checked_div (-gamm) tdust
    let k := v0 * L.exp e
    let k := 0
    .ok k
  | 22 => do
    let q ← checked_div
      (2 * NUMBER_SITE_PER_GRAIN_SURFACE * gamm * c.CONST_CGSM_BOLTZMANN)
      (M_PI * M_PI * beta * c.CONST_CGSM_MASS_PROTON)
    let v0 := L.pow q 0.5
    let e ← checked_div (-gamm) 70
    let k := v0 * FRACTION_TIME_GRAIN_70K * L.exp e
    let k := 0
    .ok k
  | 23 =>
    let k := chi * L.exp (-2 * av) * alpha * M_PI * L.pow grain_size 2
    .ok k
  | _ => .error .unknownReactionType

end IEEE

/-! ## Vocabulary of the specification -/

/-- The reaction types that have a `case` label in the `switch` of `rate`. -/
def recognisedTypes : List Int :=
  [0, 1, 2, 3, 4, 5, 6, 7, 8, 9, 10, 11, 12, 13, 14, 20, 21, 22, 23]

/-- The twelve reaction types that share the modified-Arrhenius `case`. -/
def arrheniusTypes : List Int :=
  [2, 3, 4, 5, 6, 7, 8, 9, 10, 11, 12, 14]

/-- The row of the dispatch table of the specification that a reaction type
belongs to, numbered in the order of the table: 0, 1, 2..12 and 14, 13, 20, 21,
22, 23. -/
def dispatchRow (reaction_type : Int) : Option Nat :=
  match reaction_type with
  | 0 => some 0
  | 1 => some 1
  | 2 | 3 | 4 | 5 | 6 | 7 | 8 | 9 | 10 | 11 | 12 | 14 => some 2
  | 13 => some 3
  | 20 => some 4
  | 21 => some 5
  | 22 => some 6
  | 23 => some 7
  | _ => none

/-- The reaction types of which C15 speaks: 0..14, 20 and 23. -/
def divisionCheckedTypes : List Int :=
  [0, 1, 2, 3, 4, 5, 6, 7, 8, 9, 10, 11, 12, 13, 14, 20, 23]

/-! ## Theorems -/

/-- The value returned in the Arrhenius branch, for each of its twelve `case`
labels. -/
theorem rate_arrhenius_eq (c : PhysConst) (alpha beta gamm : ℝ)
    (reaction_type reaction_no : Int) (av tgas tdust chi cosmic grain_size : ℝ)
    (htype : reaction_type ∈ arrheniusTypes) :
    rate c alpha beta gamm reaction_type reaction_no av tgas tdust chi cosmic grain_size
      = .ok (alpha * (tgas / 300) ^ beta * Real.exp (-gamm / tgas)) := by
  simp only [arrheniusTypes, List.mem_cons, List.mem_singleton, List.not_mem_nil,
    or_false] at htype
  rcases htype with h | h | h | h | h | h | h | h | h | h | h | h <;> subst h <;>
    simp [rate, pow, exp]

/-- The depletion rate (type 20) is strictly positive at `alpha = 1`, `beta = 1`,
`tgas = 300`, `grain_size = 1` when the two header constants are positive. -/
theorem rate_depletion_pos (c : PhysConst) (hk : 0 < c.CONST_CGSM_BOLTZMANN)
    (hm : 0 < c.CONST_CGSM_MASS_PROTON) (gamm : ℝ) (reaction_no : Int)
    (av tdust chi cosmic : ℝ) :
    ∃ v : ℝ, 0 < v ∧ rate c 1 1 gamm 20 reaction_no av 300 tdust chi cosmic 1 = .ok v := by
  refine ⟨_, ?_, rfl⟩
  have hpi := Real.pi_pos
  simp only [pow, M_PI]
  positivity

/-- A recognised reaction type is 0, 1, an Arrhenius type, 13, 20, 21, 22 or
23. -/
theorem recognised_cases (reaction_type : Int) (h : reaction_type ∈ recognisedTypes) :
    reaction_type = 0 ∨ reaction_type = 1 ∨ reaction_type ∈ arrheniusTypes ∨
    reaction_type = 13 ∨ reaction_type = 20 ∨ reaction_type = 21 ∨
    reaction_type = 22 ∨ reaction_type = 23 := by
  simp only [recognisedTypes, arrheniusTypes, List.mem_cons, List.mem_singleton,
    List.not_mem_nil, or_false] at h ⊢
  omega

/-- The twelve Arrhenius reaction types are in one row of the dispatch table. -/
theorem dispatchRow_arrhenius (reaction_type : Int)
    (h : reaction_type ∈ arrheniusTypes) : dispatchRow reaction_type = some 2 := by
  simp only [arrheniusTypes, List.mem_cons, List.mem_singleton, List.not_mem_nil,
    or_false] at h
  rcases h with h | h | h | h | h | h | h | h | h | h | h | h <;> subst h <;> rfl

/-- A reaction type among 0..14, 20, 23 is 0, 1, an Arrhenius type, 13, 20 or
23. -/
theorem divisionChecked_cases (reaction_type : Int)
    (h : reaction_type ∈ divisionCheckedTypes) :
    reaction_type = 0 ∨ reaction_type = 1 ∨ reaction_type ∈ arrheniusTypes ∨
    reaction_type = 13 ∨ reaction_type = 20 ∨ reaction_type = 23 := by
  simp only [divisionCheckedTypes, arrheniusTypes, List.mem_cons, List.mem_singleton,
    List.not_mem_nil, or_false] at h ⊢
  omega

/-- C1: `rate` ends in the unknown-reaction-type failure exactly when
`reaction_type` is not one of 0..14, 20, 21, 22, 23, and it returns a number
exactly when it is one of them, whatever the other arguments are (zero `tgas`,
`tdust` or `beta` included).  `RateError` has a single constructor, so there is
no other failure. -/
theorem rate_error_iff_unrecognised (c : PhysConst) (alpha beta gamm : ℝ)
    (reaction_type reaction_no : Int) (av tgas tdust chi cosmic grain_size : ℝ) :
    (rate c alpha beta gamm reaction_type reaction_no av tgas tdust chi cosmic grain_size
        = .error .unknownReactionType ↔ reaction_type ∉ recognisedTypes) ∧
    ((∃ k : ℝ, rate c alpha beta gamm reaction_type reaction_no av tgas tdust chi cosmic
        grain_size = .ok k) ↔ reaction_type ∈ recognisedTypes) ∧
    (∀ e : RateError, e = .unknownReactionType) := by
  refine ⟨?_, ?_, fun e => by cases e; rfl⟩
  · unfold rate
    split <;> simp_all [recognisedTypes]
  · unfold rate
    split <;> simp_all [recognisedTypes]

/-- C2: for reaction types 21 (thermal desorption) and 22 (cosmic-ray
desorption) `rate` returns exactly 0, whatever the arguments are: the value
computed from `v0` is overwritten before the `return`. -/
theorem rate_desorption_zero (c : PhysConst) (alpha beta gamm : ℝ)
    (reaction_no : Int) (av tgas tdust chi cosmic grain_size : ℝ) :
    rate c alpha beta gamm 21 reaction_no av tgas tdust chi cosmic grain_size = .ok 0 ∧
    rate c alpha beta gamm 22 reaction_no av tgas tdust chi cosmic grain_size = .ok 0 := by
  constructor <;> simp [rate]

/-- C3: for each of the twelve Arrhenius reaction types and `tgas > 0`, `rate`
returns `alpha * (tgas/300)^beta * exp(-gamma/tgas)`; any two of the twelve
types return the same value on the same `alpha`, `beta`, `gamma`, `tgas`,
whatever `reaction_no`, `av`, `tdust`, `chi`, `cosmic` and `grain_size` are. -/
theorem rate_arrhenius_formula (c : PhysConst) (alpha beta gamm : ℝ)
    (reaction_type reaction_no : Int) (av tgas tdust chi cosmic grain_size : ℝ)
    (htype : reaction_type ∈ arrheniusTypes) (htgas : 0 < tgas) :
    rate c alpha beta gamm reaction_type reaction_no av tgas tdust chi cosmic grain_size
      = .ok (alpha * (tgas / 300) ^ beta * Real.exp (-gamm / tgas)) ∧
    ∀ (c2 : PhysConst) (type2 no2 : Int) (av2 tdust2 chi2 cosmic2 grain_size2 : ℝ),
      type2 ∈ arrheniusTypes →
      rate c2 alpha beta gamm type2 no2 av2 tgas tdust2 chi2 cosmic2 grain_size2
        = rate c alpha beta gamm reaction_type reaction_no av tgas tdust chi cosmic
            grain_size := by
  refine ⟨rate_arrhenius_eq _ _ _ _ _ _ _ _ _ _ _ _ htype, ?_⟩
  intro c2 type2 no2 av2 tdust2 chi2 cosmic2 grain_size2 h2
  rw [rate_arrhenius_eq _ _ _ _ _ _ _ _ _ _ _ _ htype,
    rate_arrhenius_eq _ _ _ _ _ _ _ _ _ _ _ _ h2]

/-- Witness of C3: reaction type 7 at `tgas = 10`. -/
theorem rate_arrhenius_formula_witness :
    rate cgs 2 3 5 7 0 1 10 20 1 1 1
      = .ok (2 * ((10 : ℝ) / 300) ^ (3 : ℝ) * Real.exp (-5 / 10)) :=
  (rate_arrhenius_formula cgs 2 3 5 7 0 1 10 20 1 1 1
    (by simp [arrheniusTypes]) (by norm_num)).1

/-- C4: for reaction type 20, `tgas ≥ 0` and `beta > 0` (and positive
Boltzmann and proton-mass constants), `rate` returns
`π * grain_size² * alpha * v_th` with
`v_th = sqrt (8 * k_B * tgas / (π * beta * m_p))`: the argument of the square
root is non-negative, `pow (x, 0.5)` is `sqrt x` there, and neither `tdust` nor
`gamma` enters. -/
theorem rate_depletion_formula (c : PhysConst) (alpha beta gamm : ℝ)
    (reaction_no : Int) (av tgas tdust chi cosmic grain_size : ℝ)
    (hk : 0 < c.CONST_CGSM_BOLTZMANN) (hm : 0 < c.CONST_CGSM_MASS_PROTON)
    (htgas : 0 ≤ tgas) (hbeta : 0 < beta) :
    rate c alpha beta gamm 20 reaction_no av tgas tdust chi cosmic grain_size
      = .ok (Real.pi * grain_size ^ 2 * alpha *
          √(8 * c.CONST_CGSM_BOLTZMANN * tgas
              / (Real.pi * beta * c.CONST_CGSM_MASS_PROTON))) ∧
    0 ≤ 8 * c.CONST_CGSM_BOLTZMANN * tgas / (Real.pi * beta * c.CONST_CGSM_MASS_PROTON) ∧
    pow (8 * c.CONST_CGSM_BOLTZMANN * tgas / (M_PI * beta * c.CONST_CGSM_MASS_PROTON)) 0.5
      = √(8 * c.CONST_CGSM_BOLTZMANN * tgas
            / (Real.pi * beta * c.CONST_CGSM_MASS_PROTON)) := by
  have hhalf : (0.5 : ℝ) = 1 / 2 := by norm_num
  have hsqrt : ∀ x : ℝ, pow x 0.5 = √x := by
    intro x
    rw [pow, hhalf, Real.sqrt_eq_rpow]
  refine ⟨?_, ?_, ?_⟩
  · simp only [rate, hsqrt]
    simp only [M_PI, pow, Real.rpow_two]
  · have := Real.pi_pos
    positivity
  · rw [hsqrt, M_PI]

/-- Witness of C4: `alpha = 1e-4`, `beta = 1`, `gamma = 100`, `tgas = 10`,
`grain_size = 1e-5`. -/
theorem rate_depletion_formula_witness :
    rate cgs 1e-4 1 100 20 0 0 10 10 1 1 1e-5
      = .ok (Real.pi * (1e-5 : ℝ) ^ 2 * 1e-4 *
          √(8 * cgs.CONST_CGSM_BOLTZMANN * 10
              / (Real.pi * 1 * cgs.CONST_CGSM_MASS_PROTON))) :=
  (rate_depletion_formula cgs 1e-4 1 100 0 0 10 10 1 1 1e-5
    (by norm_num [cgs]) (by norm_num [cgs]) (by norm_num) (by norm_num)).1

/-- C6: for reaction type 13 at `av = 0`, `rate` returns `chi * alpha`,
whatever the other arguments are; at `alpha = 1`, `chi = 1` the value is 1. -/
theorem rate_photoprocess_av_zero (c : PhysConst) (alpha beta gamm : ℝ)
    (reaction_no : Int) (tgas tdust chi cosmic grain_size : ℝ) :
    rate c alpha beta gamm 13 reaction_no 0 tgas tdust chi cosmic grain_size
      = .ok (chi * alpha) ∧
    rate c 1 1 0 13 reaction_no 0 tgas tdust 1 cosmic grain_size = .ok 1 := by
  constructor <;> simp [rate, exp]

/-- C9, as stated, fails: reaction type 1 is recognised, and with
`alpha = -1`, `cosmic = 1` the value returned is `-1`. -/
theorem rate_negative_of_neg_alpha :
    (1 : Int) ∈ recognisedTypes ∧
    ∃ k : ℝ, rate cgs (-1) 0 0 1 0 0 10 10 1 1 1 = .ok k ∧ k < 0 := by
  refine ⟨by simp [recognisedTypes], -1, by simp [rate], by norm_num⟩

/-- C10, as stated, fails: reaction types 21 and 22 are recognised and sit in
different rows of the dispatch table, yet `rate` returns the same value for
both on every input. -/
theorem rate_desorption_rows_agree :
    (21 : Int) ∈ recognisedTypes ∧ (22 : Int) ∈ recognisedTypes ∧
    dispatchRow 21 ≠ dispatchRow 22 ∧
    ¬ ∃ (c : PhysConst) (alpha beta gamm : ℝ) (reaction_no : Int)
        (av tgas tdust chi cosmic grain_size : ℝ),
        rate c alpha beta gamm 21 reaction_no av tgas tdust chi cosmic grain_size
          ≠ rate c alpha beta gamm 22 reaction_no av tgas tdust chi cosmic grain_size := by
  refine ⟨by simp [recognisedTypes], by simp [recognisedTypes], by simp [dispatchRow], ?_⟩
  rintro ⟨c, alpha, beta, gamm, reaction_no, av, tgas, tdust, chi, cosmic, grain_size, h⟩
  exact h (by simp [rate])

/-- C10, amended: for every pair of recognised reaction types in different rows
of the dispatch table, other than the pair 21 and 22, there is an input (with
positive `beta`, `tgas` and `tdust`) on which `rate` returns different values
for the two types; the Boltzmann and proton-mass constants are positive. -/
theorem rate_rows_distinguished (c : PhysConst) (hk : 0 < c.CONST_CGSM_BOLTZMANN)
    (hm : 0 < c.CONST_CGSM_MASS_PROTON) (type1 type2 : Int)
    (h1 : type1 ∈ recognisedTypes) (h2 : type2 ∈ recognisedTypes)
    (hrow : dispatchRow type1 ≠ dispatchRow type2)
    (hdes : ¬ ((type1 = 21 ∧ type2 = 22) ∨ (type1 = 22 ∧ type2 = 21))) :
    ∃ (alpha beta gamm : ℝ) (reaction_no : Int) (av tgas tdust chi cosmic grain_size : ℝ),
      0 < beta ∧ 0 < tgas ∧ 0 < tdust ∧
      rate c alpha beta gamm type1 reaction_no av tgas tdust chi cosmic grain_size
        ≠ rate c alpha beta gamm type2 reaction_no av tgas tdust chi cosmic grain_size := by
  -- first input: `grain_size = 0`, which separates rows 0, 1, 2..12/14 and 13
  -- from each other and from the grain-surface rows
  have e0 : rate c 1 1 0 0 0 0 300 1 3 2 0 = .ok 7.57e+11 := by
    simp [rate, pow, GAS_DUST_NUMBER_RATIO]
  have e1 : rate c 1 1 0 1 0 0 300 1 3 2 0 = .ok 2 := by simp [rate]
  have ea : ∀ t ∈ arrheniusTypes, rate c 1 1 0 t 0 0 300 1 3 2 0 = .ok 1 := by
    intro t ht
    rw [rate_arrhenius_eq _ _ _ _ _ _ _ _ _ _ _ _ ht]
    simp
  have e13 : rate c 1 1 0 13 0 0 300 1 3 2 0 = .ok 3 := by simp [rate, exp]
  have e20 : rate c 1 1 0 20 0 0 300 1 3 2 0 = .ok 0 := by simp [rate, pow]
  have e21 : rate c 1 1 0 21 0 0 300 1 3 2 0 = .ok 0 := by simp [rate]
  have e22 : rate c 1 1 0 22 0 0 300 1 3 2 0 = .ok 0 := by simp [rate]
  have e23 : rate c 1 1 0 23 0 0 300 1 3 2 0 = .ok 0 := by simp [rate, pow]
  -- second input: `chi = 0`, `grain_size = 1`, which separates row 20 from
  -- rows 21, 22 and 23
  obtain ⟨v, hv, f20⟩ := rate_depletion_pos c hk hm 0 0 0 1 0 2
  have f21 : rate c 1 1 0 21 0 0 300 1 0 2 1 = .ok 0 := by simp [rate]
  have f22 : rate c 1 1 0 22 0 0 300 1 0 2 1 = .ok 0 := by simp [rate]
  have f23 : rate c 1 1 0 23 0 0 300 1 0 2 1 = .ok 0 := by simp [rate]
  -- third input: `chi = 1`, `grain_size = 1`, which separates row 23 from
  -- rows 21 and 22
  have g21 : rate c 1 1 0 21 0 0 300 1 1 2 1 = .ok 0 := by simp [rate]
  have g22 : rate c 1 1 0 22 0 0 300 1 1 2 1 = .ok 0 := by simp [rate]
  have g23 : rate c 1 1 0 23 0 0 300 1 1 2 1 = .ok Real.pi := by
    simp [rate, pow, exp, M_PI]
  have hpi : 0 < Real.pi := Real.pi_pos
  have r0 : dispatchRow 0 = some 0 := rfl
  have r1 : dispatchRow 1 = some 1 := rfl
  have r13 : dispatchRow 13 = some 3 := rfl
  have r20 : dispatchRow 20 = some 4 := rfl
  have r21 : dispatchRow 21 = some 5 := rfl
  have r22 : dispatchRow 22 = some 6 := rfl
  have r23 : dispatchRow 23 = some 7 := rfl
  rcases recognised_cases type1 h1 with h | h | a1 | h | h | h | h | h
    <;> rcases recognised_cases type2 h2 with g | g | a2 | g | g | g | g | g
    <;> (try subst h) <;> (try subst g)
    <;> (try rw [dispatchRow_arrhenius _ a1] at hrow)
    <;> (try rw [dispatchRow_arrhenius _ a2] at hrow)
    <;> (try simp only [r0, r1, r13, r20, r21, r22, r23] at hrow)
    <;> first
      | (exfalso
         apply hrow
         rfl)
      | (exfalso
         apply hdes
         left
         constructor <;> rfl)
      | (exfalso
         apply hdes
         right
         constructor <;> rfl)
      | (refine ⟨1, 1, 0, 0, 0, 300, 1, 3, 2, 0, by norm_num, by norm_num, by norm_num, ?_⟩
         (try rw [ea _ a1])
         (try rw [ea _ a2])
         simp only [e0, e1, e13, e20, e21, e22, e23]
         intro h
         injection h with h
         linarith)
      | (refine ⟨1, 1, 0, 0, 0, 300, 1, 0, 2, 1, by norm_num, by norm_num, by norm_num, ?_⟩
         simp only [f20, f21, f22, f23]
         intro h
         injection h with h
         linarith)
      | (refine ⟨1, 1, 0, 0, 0, 300, 1, 1, 2, 1, by norm_num, by norm_num, by norm_num, ?_⟩
         simp only [g21, g22, g23]
         intro h
         injection h with h
         linarith)

/-- Witness of C10 (amended): reaction types 20 and 23. -/
theorem rate_rows_distinguished_witness :
    ∃ (alpha beta gamm : ℝ) (reaction_no : Int) (av tgas tdust chi cosmic grain_size : ℝ),
      0 < beta ∧ 0 < tgas ∧ 0 < tdust ∧
      rate cgs alpha beta gamm 20 reaction_no av tgas tdust chi cosmic grain_size
        ≠ rate cgs alpha beta gamm 23 reaction_no av tgas tdust chi cosmic grain_size :=
  rate_rows_distinguished cgs (by norm_num [cgs]) (by norm_num [cgs]) 20 23
    (by simp [recognisedTypes]) (by simp [recognisedTypes]) (by simp [dispatchRow])
    (by norm_num)

/-- C11: for reaction type 0 (grain recombination) and `tgas > 0`, `rate`
returns `alpha * (tgas/300)^beta * 7.57e11`; the value depends neither on
`gamma` nor on `reaction_no`, `av`, `tdust`, `chi`, `cosmic`, `grain_size` or the
header constants. -/
theorem rate_grain_recombination_formula (c : PhysConst) (alpha beta gamm : ℝ)
    (reaction_no : Int) (av tgas tdust chi cosmic grain_size : ℝ) (htgas : 0 < tgas) :
    rate c alpha beta gamm 0 reaction_no av tgas tdust chi cosmic grain_size
      = .ok (alpha * (tgas / 300) ^ beta * 7.57e11) ∧
    ∀ (c2 : PhysConst) (gamm2 : ℝ) (no2 : Int) (av2 tdust2 chi2 cosmic2 grain_size2 : ℝ),
      rate c2 alpha beta gamm2 0 no2 av2 tgas tdust2 chi2 cosmic2 grain_size2
        = rate c alpha beta gamm 0 reaction_no av tgas tdust chi cosmic grain_size := by
  constructor
  · simp only [rate, pow, GAS_DUST_NUMBER_RATIO]
  · intro c2 gamm2 no2 av2 tdust2 chi2 cosmic2 grain_size2
    simp only [rate]

/-- Witness of C11: `alpha = 2`, `beta = 1/2`, `tgas = 10`. -/
theorem rate_grain_recombination_formula_witness :
    rate cgs 2 (1 / 2) 5 0 0 1 10 20 1 1 1
      = .ok (2 * ((10 : ℝ) / 300) ^ ((1 : ℝ) / 2) * 7.57e11) :=
  (rate_grain_recombination_formula cgs 2 (1 / 2) 5 0 1 10 20 1 1 1 (by norm_num)).1

/-- C12: for reaction type 23 (photodesorption), `rate` returns
`chi * exp(-2*av) * alpha * π * grain_size²`; the value depends neither on
`beta`, `gamma`, `tgas`, `tdust`, `cosmic` nor on `reaction_no` or the header
constants. -/
theorem rate_photodesorption_formula (c : PhysConst) (alpha beta gamm : ℝ)
    (reaction_no : Int) (av tgas tdust chi cosmic grain_size : ℝ) :
    rate c alpha beta gamm 23 reaction_no av tgas tdust chi cosmic grain_size
      = .ok (chi * Real.exp (-2 * av) * alpha * Real.pi * grain_size ^ 2) ∧
    ∀ (c2 : PhysConst) (beta2 gamm2 : ℝ) (no2 : Int) (tgas2 tdust2 cosmic2 : ℝ),
      rate c2 alpha beta2 gamm2 23 no2 av tgas2 tdust2 chi cosmic2 grain_size
        = rate c alpha beta gamm 23 reaction_no av tgas tdust chi cosmic grain_size := by
  constructor
  · simp only [rate, pow, exp, M_PI, Real.rpow_two]
  · intro c2 beta2 gamm2 no2 tgas2 tdust2 cosmic2
    simp only [rate]

/-- C13: for each Arrhenius reaction type, at `tgas = 300` and `gamma = 0`,
`rate` returns exactly `alpha`, whatever `alpha` and `beta` are. -/
theorem rate_arrhenius_at_300 (c : PhysConst) (alpha beta : ℝ)
    (reaction_type reaction_no : Int) (av tdust chi cosmic grain_size : ℝ)
    (htype : reaction_type ∈ arrheniusTypes) :
    rate c alpha beta 0 reaction_type reaction_no av 300 tdust chi cosmic grain_size
      = .ok alpha := by
  rw [rate_arrhenius_eq _ _ _ _ _ _ _ _ _ _ _ _ htype]
  simp

/-- Witness of C13: `alpha = 1e-17`, `beta = -0.5`, reaction type 2. -/
theorem rate_arrhenius_at_300_witness :
    rate cgs 1e-17 (-0.5) 0 2 0 0 300 10 1 1.3e-17 1e-5 = .ok 1e-17 :=
  rate_arrhenius_at_300 cgs 1e-17 (-0.5) 2 0 0 10 1 1.3e-17 1e-5
    (by simp [arrheniusTypes])

/-- C18: the dust temperature never influences the outcome of `rate`: for every
reaction type, recognised or not, and every choice of the other arguments, two
values of `tdust` give the same outcome. -/
theorem rate_independent_of_tdust (c : PhysConst) (alpha beta gamm : ℝ)
    (reaction_type reaction_no : Int) (av tgas tdust1 tdust2 chi cosmic grain_size : ℝ) :
    rate c alpha beta gamm reaction_type reaction_no av tgas tdust1 chi cosmic grain_size
      = rate c alpha beta gamm reaction_type reaction_no av tgas tdust2 chi cosmic
          grain_size := by
  simp only [rate]

/-! ## Theorems on doubles -/

namespace IEEE

open Double

theorem rne_intCast (n : ℤ) : rne (n : ℝ) = n := by
  simp [rne]

theorem le_rne {n : ℤ} {r : ℝ} (h : (n : ℝ) ≤ r) : n ≤ rne r := by
  have hf : n ≤ ⌊r⌋ := Int.le_floor.mpr h
  unfold rne
  split_ifs <;> omega

theorem rne_le {n : ℤ} {r : ℝ} (h : r ≤ (n : ℝ)) : rne r ≤ n := by
  rcases eq_or_lt_of_le h with h | h
  · rw [h, rne_intCast]
  · have hf : ⌊r⌋ < n := Int.floor_lt.mpr h
    unfold rne
    split_ifs <;> omega

theorem ulp_pos (q : ℝ) : 0 < ulp q := by
  unfold ulp
  positivity

theorem roundMag_zero : roundMag 0 = 0 := by
  simp [roundMag, rne]

theorem roundMag_nonneg {q : ℝ} (h : 0 ≤ q) : 0 ≤ roundMag q := by
  unfold roundMag
  have hu := ulp_pos q
  have : (0 : ℤ) ≤ rne (q / ulp q) := le_rne (by simpa using div_nonneg h hu.le)
  have : (0 : ℝ) ≤ (rne (q / ulp q) : ℝ) := by exact_mod_cast this
  positivity

theorem rne_mul_zpow (n k : ℤ) (hk : 0 ≤ k) :
    ((rne ((n : ℝ) * (2 : ℝ) ^ k) : ℤ) : ℝ) = (n : ℝ) * (2 : ℝ) ^ k := by
  obtain ⟨j, rfl⟩ := Int.eq_ofNat_of_zero_le hk
  have h : (n : ℝ) * (2 : ℝ) ^ (j : ℤ) = ((n * 2 ^ j : ℤ) : ℝ) := by
    push_cast
    rw [zpow_natCast]
  rw [h, rne_intCast]

/-- A magnitude `n * 2^(e-52)` with `0 ≤ n < 2^53` and `e ≥ -1022` is not changed by rounding. -/
theorem roundMag_of_repr (n e : ℤ) (hn0 : 0 ≤ n) (hn : n < 2 ^ 53) (he : -1022 ≤ e) :
    roundMag ((n : ℝ) * (2 : ℝ) ^ (e - 52)) = (n : ℝ) * (2 : ℝ) ^ (e - 52) := by
  rcases eq_or_lt_of_le hn0 with h0 | hpos
  · subst h0
    simp [roundMag_zero]
  set r : ℝ := (n : ℝ) * (2 : ℝ) ^ (e - 52) with hr
  have hnR : (0 : ℝ) < n := by exact_mod_cast hpos
  have hrpos : 0 < r := by positivity
  have hlt : r < (2 : ℝ) ^ (e + 1) := by
    have h1 : (n : ℝ) < (2 : ℝ) ^ (53 : ℤ) := by
      have : (n : ℝ) < ((2 ^ 53 : ℤ) : ℝ) := by exact_mod_cast hn
      norm_num at this ⊢
      exact this
    have h2 : (2 : ℝ) ^ (e + 1) = (2 : ℝ) ^ (53 : ℤ) * (2 : ℝ) ^ (e - 52) := by
      rw [← zpow_add₀ (by norm_num)]
      congr 1
      ring
    rw [h2, hr]
    exact mul_lt_mul_of_pos_right h1 (by positivity)
  have hlog : Int.log 2 r < e + 1 :=
    (Int.lt_zpow_iff_log_lt (by norm_num) hrpos).mp (by exact_mod_cast hlt)
  have hmax : max (Int.log 2 r) (-1022) ≤ e := max_le (by omega) he
  have hdiv : r / ulp r = (n : ℝ) * (2 : ℝ) ^ (e - max (Int.log 2 r) (-1022)) := by
    rw [ulp, hr, mul_div_assoc, ← zpow_sub₀ (by norm_num)]
    congr 2
    ring
  have hun : ulp r = (2 : ℝ) ^ (max (Int.log 2 r) (-1022) - 52) := rfl
  rw [roundMag, hdiv, rne_mul_zpow _ _ (by omega), mul_assoc, hun,
    ← zpow_add₀ (by norm_num)]
  rw [hr]
  congr 2
  ring

theorem ulp_eq (q : ℝ) : ulp q = (2 : ℝ) ^ (max (Int.log 2 q) (-1022) - 52) := rfl

/-- The bound `2^j`, a multiple of the unit in the last place, is kept by rounding from below. -/
theorem two_zpow_le_roundMag_aux {q : ℝ} {j : ℤ}
    (hj : max (Int.log 2 q) (-1022) - 52 ≤ j) (h : (2 : ℝ) ^ j ≤ q) :
    (2 : ℝ) ^ j ≤ roundMag q := by
  have hu := ulp_pos q
  obtain ⟨i, hi⟩ := Int.eq_ofNat_of_zero_le (sub_nonneg.mpr hj)
  have hsplit : (2 : ℝ) ^ j = ((2 ^ i : ℤ) : ℝ) * ulp q := by
    rw [ulp_eq]
    push_cast
    rw [← zpow_natCast, ← hi, ← zpow_add₀ (by norm_num)]
    congr 1
    ring
  have hle : ((2 ^ i : ℤ) : ℝ) ≤ q / ulp q := by
    rw [le_div_iff₀ hu, ← hsplit]
    exact h
  have hr : ((2 ^ i : ℤ) : ℝ) ≤ (rne (q / ulp q) : ℝ) := by
    exact_mod_cast le_rne hle
  rw [hsplit, roundMag]
  exact mul_le_mul_of_nonneg_right hr hu.le

/-- The bound `2^j`, a multiple of the unit in the last place, is kept by rounding from above. -/
theorem roundMag_le_two_zpow_aux {q : ℝ} {j : ℤ}
    (hj : max (Int.log 2 q) (-1022) - 52 ≤ j) (h : q ≤ (2 : ℝ) ^ j) :
    roundMag q ≤ (2 : ℝ) ^ j := by
  have hu := ulp_pos q
  obtain ⟨i, hi⟩ := Int.eq_ofNat_of_zero_le (sub_nonneg.mpr hj)
  have hsplit : (2 : ℝ) ^ j = ((2 ^ i : ℤ) : ℝ) * ulp q := by
    rw [ulp_eq]
    push_cast
    rw [← zpow_natCast, ← hi, ← zpow_add₀ (by norm_num)]
    congr 1
    ring
  have hle : q / ulp q ≤ ((2 ^ i : ℤ) : ℝ) := by
    rw [div_le_iff₀ hu, ← hsplit]
    exact h
  have hr : (rne (q / ulp q) : ℝ) ≤ ((2 ^ i : ℤ) : ℝ) := by
    exact_mod_cast rne_le hle
  rw [hsplit, roundMag]
  exact mul_le_mul_of_nonneg_right hr hu.le

/-- Rounding does not go below a power of two `2^k`, `k ≥ -1074`, that the argument reaches. -/
theorem two_zpow_le_roundMag {q : ℝ} {k : ℤ} (hk : -1074 ≤ k) (h : (2 : ℝ) ^ k ≤ q) :
    (2 : ℝ) ^ k ≤ roundMag q := by
  have hqpos : 0 < q := lt_of_lt_of_le (by positivity) h
  have hkl : k ≤ Int.log 2 q :=
    (Int.zpow_le_iff_le_log (by norm_num) hqpos).mp (by exact_mod_cast h)
  by_cases hn : -1022 ≤ Int.log 2 q
  · have h1 : (2 : ℝ) ^ (Int.log 2 q) ≤ q := by
      have := Int.zpow_log_le_self (by norm_num : 1 < 2) hqpos
      exact_mod_cast this
    have h2 := @two_zpow_le_roundMag_aux q (Int.log 2 q)
      (by rw [max_eq_left hn]; omega) h1
    exact le_trans (zpow_le_zpow_right₀ (by norm_num) hkl) h2
  · exact two_zpow_le_roundMag_aux (by rw [max_eq_right (by omega)]; omega) h

/-- Rounding does not go above a power of two `2^k`, `k ≥ -1074`, that bounds the argument. -/
theorem roundMag_le_two_zpow {q : ℝ} {k : ℤ} (hk : -1074 ≤ k) (h0 : 0 ≤ q)
    (h : q ≤ (2 : ℝ) ^ k) : roundMag q ≤ (2 : ℝ) ^ k := by
  rcases eq_or_lt_of_le h0 with h0 | hqpos
  · rw [← h0, roundMag_zero]
    positivity
  have hkl : Int.log 2 q < k + 1 := by
    refine (Int.lt_zpow_iff_log_lt (by norm_num) hqpos).mp ?_
    have h2 : (2 : ℝ) ^ k < (2 : ℝ) ^ (k + 1) := zpow_lt_zpow_right₀ (by norm_num) (by omega)
    exact_mod_cast lt_of_le_of_lt h h2
  have hj : max (Int.log 2 q) (-1022) - 52 ≤ k := by
    have := max_le (show Int.log 2 q ≤ k + 52 by omega) (show (-1022 : ℤ) ≤ k + 52 by omega)
    omega
  exact roundMag_le_two_zpow_aux hj h

theorem roundMag_of_isRepr {m : ℝ} (h : IsRepr m) : roundMag m = m := by
  obtain ⟨n, e, h0, h1, h2, rfl⟩ := h
  exact roundMag_of_repr n e h0 h1 h2

theorem isRepr_nonneg {m : ℝ} (h : IsRepr m) : 0 ≤ m := by
  obtain ⟨n, e, h0, h1, h2, rfl⟩ := h
  have : (0 : ℝ) ≤ n := by exact_mod_cast h0
  positivity

/-- In the subnormal binade the unit in the last place is `2^-1074`. -/
theorem roundMag_subnormal {q : ℝ} (h0 : 0 < q) (h : q < (2 : ℝ) ^ (-1021 : ℤ)) :
    roundMag q = (rne (q * (2 : ℝ) ^ (1074 : ℤ)) : ℝ) * (2 : ℝ) ^ (-1074 : ℤ) := by
  have hl : Int.log 2 q < -1021 :=
    (Int.lt_zpow_iff_log_lt (by norm_num) h0).mp (by exact_mod_cast h)
  have hu : ulp q = (2 : ℝ) ^ (-1074 : ℤ) := by
    rw [ulp_eq, max_eq_right (by omega)]
    norm_num
  have hd : q / ulp q = q * (2 : ℝ) ^ (1074 : ℤ) := by
    rw [hu, div_eq_mul_inv, ← zpow_neg]
    norm_num
  rw [roundMag, hd, hu]

/-- A non-zero binary64 magnitude is at least `2^-1074`. -/
theorem isRepr_ge_min {m : ℝ} (h : IsRepr m) (hm : m ≠ 0) : (2 : ℝ) ^ (-1074 : ℤ) ≤ m := by
  obtain ⟨n, e, h0, h1, h2, rfl⟩ := h
  have hn : 1 ≤ n := by
    rcases eq_or_lt_of_le h0 with h | h
    · subst h
      simp at hm
    · omega
  have hnR : (1 : ℝ) ≤ n := by exact_mod_cast hn
  have he : (2 : ℝ) ^ (-1074 : ℤ) ≤ (2 : ℝ) ^ (e - 52) :=
    zpow_le_zpow_right₀ (by norm_num) (by omega)
  calc (2 : ℝ) ^ (-1074 : ℤ) = 1 * (2 : ℝ) ^ (-1074 : ℤ) := by ring
    _ ≤ (n : ℝ) * (2 : ℝ) ^ (e - 52) := by gcongr

theorem DBL_MAX_nonneg : 0 ≤ DBL_MAX := by
  unfold DBL_MAX
  norm_num

theorem round_zero (s : Bool) : Double.round s 0 = fin s 0 := by
  simp [Double.round, roundMag_zero, DBL_MAX_nonneg]

theorem round_cases (s : Bool) (q : ℝ) :
    Double.round s q = fin s (roundMag q) ∨ Double.round s q = inf s := by
  unfold Double.round
  split_ifs
  · exact Or.inl rfl
  · exact Or.inr rfl

theorem signClear_round {q : ℝ} (hq : 0 ≤ q) : (Double.round false q).SignClear := by
  rcases round_cases false q with h | h <;> rw [h]
  · exact ⟨rfl, roundMag_nonneg hq⟩
  · rfl

theorem nonneg_of_signClear {x : Double} (h : x.SignClear) : x.Nonneg := by
  cases x with
  | nan => exact h
  | inf s => exact h
  | fin s m =>
    obtain ⟨hs, hm⟩ := h
    refine ⟨hm, fun hs' => ?_⟩
    rw [hs] at hs'
    cases hs'

theorem signClear_of_pos {x : Double} (h : x.Pos) : x.SignClear := by
  cases x with
  | nan => exact h
  | inf s => exact h
  | fin s m => exact ⟨h.1, h.2.le⟩

theorem signClear_ofNat (n : ℕ) : (OfNat.ofNat n : Double).SignClear :=
  ⟨rfl, Nat.cast_nonneg n⟩

theorem signClear_ofScientific (m : ℕ) (s : Bool) (e : ℕ) :
    (OfScientific.ofScientific m s e : Double).SignClear := by
  show (Double.round false ((Rat.ofScientific m s e : ℚ) : ℝ)).SignClear
  apply signClear_round
  have h : (0 : ℚ) ≤ Rat.ofScientific m s e := by
    rw [Rat.ofScientific_def]
    split_ifs
    · rw [Rat.le_iff_sub_nonneg]
      simp only [sub_zero]
      rw [Rat.mkRat_eq_div]
      positivity
    · positivity
  exact_mod_cast h

theorem nonneg_round_zero_sign {s : Bool} : (Double.round s 0).Nonneg := by
  rw [round_zero]
  exact ⟨le_refl 0, fun _ => rfl⟩

/-- The product of two doubles `≥ 0` is `≥ 0` or a NaN. -/
theorem mul_nonneg_or_nan {x y : Double} (hx : x = nan ∨ x.Nonneg) (hy : y = nan ∨ y.Nonneg) :
    x * y = nan ∨ (x * y).Nonneg := by
  show Double.mul x y = nan ∨ (Double.mul x y).Nonneg
  rcases hx with rfl | hx
  · left
    cases y <;> rfl
  rcases hy with rfl | hy
  · left
    cases x <;> rfl
  cases x with
  | nan => exact absurd hx (by simp [Double.Nonneg])
  | inf s =>
    cases y with
    | nan => exact absurd hy (by simp [Double.Nonneg])
    | inf t =>
      right
      simp only [Double.Nonneg] at hx hy
      subst hx hy
      simp [Double.mul, Double.Nonneg]
    | fin t n =>
      simp only [Double.Nonneg] at hx hy
      subst hx
      by_cases hn : n = 0
      · left
        simp [Double.mul, hn]
      · right
        have ht : t = false := by
          cases t
          · rfl
          · exact absurd (hy.2 rfl) hn
        simp [Double.mul, hn, ht, Double.Nonneg]
  | fin s m =>
    cases y with
    | nan => exact absurd hy (by simp [Double.Nonneg])
    | inf t =>
      simp only [Double.Nonneg] at hx hy
      subst hy
      by_cases hm : m = 0
      · left
        simp [Double.mul, hm]
      · right
        have hs : s = false := by
          cases s
          · rfl
          · exact absurd (hx.2 rfl) hm
        simp [Double.mul, hm, hs, Double.Nonneg]
    | fin t n =>
      right
      simp only [Double.Nonneg] at hx hy
      simp only [Double.mul]
      have hmn : 0 ≤ m * n := mul_nonneg hx.1 hy.1
      cases s <;> cases t
      · exact nonneg_of_signClear (signClear_round hmn)
      · have := hy.2 rfl
        subst this
        rw [mul_zero]
        exact nonneg_round_zero_sign
      · have := hx.2 rfl
        subst this
        rw [zero_mul]
        exact nonneg_round_zero_sign
      · exact nonneg_of_signClear (signClear_round hmn)

/-- The product of two doubles with clear sign bit has a clear sign bit or is a NaN. -/
theorem mul_signClear_or_nan {x y : Double} (hx : x = nan ∨ x.SignClear)
    (hy : y = nan ∨ y.SignClear) : x * y = nan ∨ (x * y).SignClear := by
  show Double.mul x y = nan ∨ (Double.mul x y).SignClear
  rcases hx with rfl | hx
  · left
    cases y <;> rfl
  rcases hy with rfl | hy
  · left
    cases x <;> rfl
  cases x with
  | nan => exact absurd hx (by simp [Double.SignClear])
  | inf s =>
    cases y with
    | nan => exact absurd hy (by simp [Double.SignClear])
    | inf t =>
      simp only [Double.SignClear] at hx hy
      subst hx hy
      right
      simp [Double.mul, Double.SignClear]
    | fin t n =>
      simp only [Double.SignClear] at hx hy
      obtain ⟨ht, hn0⟩ := hy
      subst hx ht
      by_cases hn : n = 0
      · left
        simp [Double.mul, hn]
      · right
        simp [Double.mul, hn, Double.SignClear]
  | fin s m =>
    cases y with
    | nan => exact absurd hy (by simp [Double.SignClear])
    | inf t =>
      simp only [Double.SignClear] at hx hy
      obtain ⟨hs, hm0⟩ := hx
      subst hs hy
      by_cases hm : m = 0
      · left
        simp [Double.mul, hm]
      · right
        simp [Double.mul, hm, Double.SignClear]
    | fin t n =>
      simp only [Double.SignClear] at hx hy
      obtain ⟨hs, hm0⟩ := hx
      obtain ⟨ht, hn0⟩ := hy
      subst hs ht
      right
      simp only [Double.mul, Bool.xor_false]
      exact signClear_round (mul_nonneg hm0 hn0)

/-- The quotient of two doubles with clear sign bit has a clear sign bit or is a NaN. -/
theorem div_signClear_or_nan {x y : Double} (hx : x = nan ∨ x.SignClear)
    (hy : y = nan ∨ y.SignClear) : x / y = nan ∨ (x / y).SignClear := by
  show Double.div x y = nan ∨ (Double.div x y).SignClear
  rcases hx with rfl | hx
  · left
    cases y <;> rfl
  rcases hy with rfl | hy
  · left
    cases x <;> rfl
  cases x with
  | nan => exact absurd hx (by simp [Double.SignClear])
  | inf s =>
    cases y with
    | nan => exact absurd hy (by simp [Double.SignClear])
    | inf t =>
      left
      rfl
    | fin t n =>
      simp only [Double.SignClear] at hx hy
      obtain ⟨ht, hn0⟩ := hy
      subst hx ht
      right
      simp [Double.div, Double.SignClear]
  | fin s m =>
    cases y with
    | nan => exact absurd hy (by simp [Double.SignClear])
    | inf t =>
      simp only [Double.SignClear] at hx hy
      obtain ⟨hs, hm0⟩ := hx
      subst hs hy
      right
      simp [Double.div, Double.SignClear]
    | fin t n =>
      simp only [Double.SignClear] at hx hy
      obtain ⟨hs, hm0⟩ := hx
      obtain ⟨ht, hn0⟩ := hy
      subst hs ht
      simp only [Double.div, Bool.xor_false]
      by_cases hn : n = 0
      · by_cases hm : m = 0
        · left
          simp [hn, hm]
        · right
          simp [hn, hm, Double.SignClear]
      · right
        rw [if_neg hn]
        exact signClear_round (div_nonneg hm0 hn0)

theorem signClear_one : (1 : Double).SignClear := signClear_ofNat 1

theorem nonneg_fin_zero (s : Bool) : (fin s 0).Nonneg := ⟨le_refl 0, fun _ => rfl⟩

/-- The sign rule of `crPow` for a base whose sign bit is clear. -/
theorem crPow_signClear (x y : Double) (hx : x = nan ∨ x.SignClear) :
    crPow x y = nan ∨ (crPow x y).Nonneg := by
  unfold crPow
  split_ifs with h1 h2
  · exact Or.inr (nonneg_of_signClear signClear_one)
  · exact Or.inr (nonneg_of_signClear signClear_one)
  · rcases hx with rfl | hx
    · left
      cases y <;> rfl
    cases x with
    | nan => exact absurd hx (by simp [Double.SignClear])
    | inf s =>
      have hs : s = false := hx
      subst hs
      cases y with
      | nan => exact Or.inl rfl
      | inf t => cases t <;> simp [Double.Nonneg]
      | fin t n => cases t <;> simp [Double.Nonneg]
    | fin s m =>
      obtain ⟨hs, hm0⟩ := hx
      subst hs
      cases y with
      | nan => exact Or.inl rfl
      | inf t =>
        right
        simp only
        split_ifs
        · exact nonneg_of_signClear signClear_one
        · simp [Double.Nonneg]
        · simp [Double.Nonneg]
      | fin t n =>
        right
        simp only [Bool.false_and]
        split_ifs
        · simp [Double.Nonneg]
        · simp [Double.Nonneg]
        · exact nonneg_of_signClear (signClear_round (Real.rpow_nonneg hm0 _))

/-- The sign rule of `crPow` for the exponent 2. -/
theorem crPow_two (x : Double) : crPow x 2 = nan ∨ (crPow x 2).Nonneg := by
  have h2 : (2 : Double) = fin false 2 := by
    show fin false ((2 : ℕ) : ℝ) = _
    norm_num
  have hodd : ¬ ∃ k : ℤ, (2 : ℝ) = 2 * k + 1 := by
    rintro ⟨k, hk⟩
    have : (2 : ℤ) = 2 * k + 1 := by exact_mod_cast hk
    omega
  rw [h2]
  unfold crPow
  split_ifs with h1 h3
  · exact Or.inr (nonneg_of_signClear signClear_one)
  · exact Or.inr (nonneg_of_signClear signClear_one)
  · cases x with
    | nan => exact Or.inl rfl
    | inf s => simp [Double.Nonneg, hodd]
    | fin s m =>
      right
      have hint : ∃ k : ℤ, (2 : ℝ) = k := ⟨2, by norm_num⟩
      simp only [hodd, decide_False, Bool.and_false]
      by_cases hm : m = 0
      · simp [hm, Double.Nonneg]
      · rw [if_neg hm]
        have hsq : 0 ≤ m ^ sval false 2 := by
          show 0 ≤ m ^ (2 : ℝ)
          rw [Real.rpow_two]
          exact sq_nonneg m
        by_cases hs : s = false
        · rw [if_pos hs]
          exact nonneg_of_signClear (signClear_round hsq)
        · rw [if_neg hs, if_pos hint]
          exact nonneg_of_signClear (signClear_round hsq)

theorem crlibm_signRules : crlibm.SignRules := by
  refine ⟨?_, crPow_signClear, crPow_two⟩
  intro x
  show crExp x = nan ∨ (crExp x).Nonneg
  cases x with
  | nan => exact Or.inl rfl
  | inf s => cases s <;> simp [crExp, Double.Nonneg]
  | fin s m => exact Or.inr (nonneg_of_signClear (signClear_round (Real.exp_pos _).le))

/-- The value returned in the Arrhenius branch on doubles. -/
theorem rate_ieee_arrhenius_eq (L : Libm) (c : PhysConst) (alpha beta gamm : Double)
    (reaction_type reaction_no : Int) (av tgas tdust chi cosmic grain_size : Double)
    (htype : reaction_type ∈ arrheniusTypes) :
    rate L c alpha beta gamm reaction_type reaction_no av tgas tdust chi cosmic grain_size
      = .ok (alpha * L.pow (tgas / 300) beta * L.exp (-gamm / tgas)) := by
  simp only [arrheniusTypes, List.mem_cons, List.mem_singleton, List.not_mem_nil,
    or_false] at htype
  rcases htype with h | h | h | h | h | h | h | h | h | h | h | h <;> subst h <;>
    simp only [rate]

theorem signClear_M_PI : M_PI.SignClear :=
  ⟨rfl, by norm_num⟩

/-- With non-negative `alpha`, `chi`, `cosmic`, positive `tgas` (and, for type
20, positive `beta` and header constants) and a library that follows the sign
rules, the value returned by `rate` on doubles is `≥ 0` or a NaN. -/
theorem rate_nonneg_or_nan_aux (L : Libm) (hL : L.SignRules) (c : PhysConst)
    (alpha beta gamm : Double) (reaction_type reaction_no : Int)
    (av tgas tdust chi cosmic grain_size : Double)
    (htype : reaction_type ∈ recognisedTypes)
    (halpha : alpha.Nonneg) (hchi : chi.Nonneg) (hcosmic : cosmic.Nonneg)
    (htgas : tgas.Pos)
    (hdep : reaction_type = 20 →
      beta.Pos ∧ c.CONST_CGSM_BOLTZMANN.Pos ∧ c.CONST_CGSM_MASS_PROTON.Pos) :
    ∃ k : Double,
      rate L c alpha beta gamm reaction_type reaction_no av tgas tdust chi cosmic
        grain_size = .ok k ∧ (k = nan ∨ k.Nonneg) := by
  obtain ⟨hexp, hpow, hpow2⟩ := hL
  have hq : tgas / 300 = nan ∨ (tgas / 300 : Double).SignClear :=
    div_signClear_or_nan (Or.inr (signClear_of_pos htgas)) (Or.inr (signClear_ofNat 300))
  have hp := hpow (tgas / 300) beta hq
  have hpi : M_PI = nan ∨ M_PI.Nonneg := Or.inr (nonneg_of_signClear signClear_M_PI)
  rcases recognised_cases reaction_type htype with h | h | ha | h | h | h | h | h
  · subst h
    refine ⟨_, rfl, ?_⟩
    exact mul_nonneg_or_nan (mul_nonneg_or_nan (Or.inr halpha) hp)
      (Or.inr (nonneg_of_signClear (signClear_ofScientific _ _ _)))
  · subst h
    refine ⟨_, rfl, ?_⟩
    exact mul_nonneg_or_nan (Or.inr halpha) (Or.inr hcosmic)
  · refine ⟨_, rate_ieee_arrhenius_eq _ _ _ _ _ _ _ _ _ _ _ _ _ ha, ?_⟩
    exact mul_nonneg_or_nan (mul_nonneg_or_nan (Or.inr halpha) hp) (hexp _)
  · subst h
    refine ⟨_, rfl, ?_⟩
    exact mul_nonneg_or_nan (mul_nonneg_or_nan (Or.inr hchi) (Or.inr halpha)) (hexp _)
  · subst h
    obtain ⟨hb, hk, hm⟩ := hdep rfl
    refine ⟨_, rfl, ?_⟩
    have hnum : 8 * c.CONST_CGSM_BOLTZMANN * tgas = nan ∨
        (8 * c.CONST_CGSM_BOLTZMANN * tgas : Double).SignClear :=
      mul_signClear_or_nan
        (mul_signClear_or_nan (Or.inr (signClear_ofNat 8)) (Or.inr (signClear_of_pos hk)))
        (Or.inr (signClear_of_pos htgas))
    have hden : M_PI * beta * c.CONST_CGSM_MASS_PROTON = nan ∨
        (M_PI * beta * c.CONST_CGSM_MASS_PROTON : Double).SignClear :=
      mul_signClear_or_nan
        (mul_signClear_or_nan (Or.inr signClear_M_PI) (Or.inr (signClear_of_pos hb)))
        (Or.inr (signClear_of_pos hm))
    have hv := hpow _ (0.5 : Double) (div_signClear_or_nan hnum hden)
    exact mul_nonneg_or_nan
      (mul_nonneg_or_nan (mul_nonneg_or_nan hpi (hpow2 grain_size)) (Or.inr halpha)) hv
  · subst h
    exact ⟨0, rfl, Or.inr (nonneg_of_signClear (signClear_ofNat 0))⟩
  · subst h
    exact ⟨0, rfl, Or.inr (nonneg_of_signClear (signClear_ofNat 0))⟩
  · subst h
    refine ⟨_, rfl, ?_⟩
    exact mul_nonneg_or_nan
      (mul_nonneg_or_nan
        (mul_nonneg_or_nan (mul_nonneg_or_nan (Or.inr hchi) (hexp _)) (Or.inr halpha)) hpi)
      (hpow2 grain_size)

theorem one_le_DBL_MAX : 1 ≤ DBL_MAX := by
  unfold DBL_MAX
  norm_num

theorem round_of_isRepr (s : Bool) {m : ℝ} (h : IsRepr m) (hmax : m ≤ DBL_MAX) :
    Double.round s m = fin s m := by
  rw [Double.round, roundMag_of_isRepr h, if_pos hmax]

theorem ofNat_eq (n : ℕ) : (OfNat.ofNat n : Double) = fin false (n : ℝ) := rfl

theorem mul_fin_fin (s t : Bool) (m n : ℝ) :
    (fin s m * fin t n : Double) = Double.round (xor s t) (m * n) := rfl

theorem rne_eq_zero {r : ℝ} (h0 : 0 ≤ r) (h : r ≤ 1 / 2) : rne r = 0 := by
  have hf : ⌊r⌋ = 0 := by
    rw [Int.floor_eq_iff]
    constructor
    · simpa using h0
    · norm_num
      linarith
  unfold rne
  rw [hf]
  norm_num
  intro h1
  linarith

/-- A positive magnitude of at most `2^-1075` rounds to zero. -/
theorem roundMag_tiny {q : ℝ} (h0 : 0 ≤ q) (h : q ≤ (2 : ℝ) ^ (-1075 : ℤ)) :
    roundMag q = 0 := by
  rcases eq_or_lt_of_le h0 with h0 | hpos
  · rw [← h0, roundMag_zero]
  have hlt : q < (2 : ℝ) ^ (-1021 : ℤ) :=
    lt_of_le_of_lt h (zpow_lt_zpow_right₀ (by norm_num) (by norm_num))
  rw [roundMag_subnormal hpos hlt]
  have hr : q * (2 : ℝ) ^ (1074 : ℤ) ≤ 1 / 2 := by
    have h2 : (2 : ℝ) ^ (-1075 : ℤ) * (2 : ℝ) ^ (1074 : ℤ) = 1 / 2 := by
      rw [← zpow_add₀ (by norm_num)]
      norm_num
    calc q * (2 : ℝ) ^ (1074 : ℤ) ≤ (2 : ℝ) ^ (-1075 : ℤ) * (2 : ℝ) ^ (1074 : ℤ) := by gcongr
      _ = 1 / 2 := h2
  rw [rne_eq_zero (by positivity) hr]
  simp

theorem checked_div_of_not_zero (x : Double) {y : Double} (h : ¬ y.IsZero) :
    checked_div x y = .ok (x / y) := by
  simp [checked_div, h]

theorem checked_div_of_zero (x : Double) {y : Double} (h : y.IsZero) :
    checked_div x y = .error .divisionByZero := by
  simp [checked_div, h]

theorem not_isZero_300 : ¬ (300 : Double).IsZero := by
  show ¬ ((300 : ℕ) : ℝ) = 0
  norm_num

theorem not_isZero_of_pos {x : Double} (h : x.Pos) : ¬ x.IsZero := by
  cases x with
  | nan => exact fun h => h
  | inf s => exact fun h => h
  | fin s m => exact ne_of_gt h.2

/-- The Arrhenius branch with checked divisions: the division by `tgas` is the
only one that can fail. -/
theorem rate_checked_ieee_arrhenius_eq (L : Libm) (c : PhysConst) (alpha beta gamm : Double)
    (reaction_type reaction_no : Int) (av tgas tdust chi cosmic grain_size : Double)
    (htype : reaction_type ∈ arrheniusTypes) :
    rate_checked L c alpha beta gamm reaction_type reaction_no av tgas tdust chi cosmic
        grain_size
      = checked_div (-gamm) tgas >>= fun e =>
          .ok (alpha * L.pow (tgas / 300) beta * L.exp e) := by
  have h300 : ∀ x : Double, checked_div x 300 = .ok (x / 300) :=
    fun x => checked_div_of_not_zero x not_isZero_300
  simp only [arrheniusTypes, List.mem_cons, List.mem_singleton, List.not_mem_nil,
    or_false] at htype
  rcases htype with h | h | h | h | h | h | h | h | h | h | h | h <;> subst h <;>
    simp [rate_checked, h300, bind, Except.bind]

/-- A product whose exact magnitude is at least `2^-1074` is not zero. -/
theorem mul_not_isZero {x y : Double}
    (h : (2 : ℝ) ^ (-1074 : ℤ) ≤ x.mag * y.mag) : ¬ (x * y).IsZero := by
  have hpos : (0 : ℝ) < (2 : ℝ) ^ (-1074 : ℤ) := by positivity
  cases x with
  | nan => simp [Double.mag] at h; linarith
  | inf s => simp [Double.mag] at h; linarith
  | fin s m =>
    cases y with
    | nan => simp [Double.mag] at h; linarith
    | inf t => simp [Double.mag] at h; linarith
    | fin t n =>
      simp only [Double.mag] at h
      have hr : (2 : ℝ) ^ (-1074 : ℤ) ≤ roundMag (m * n) :=
        two_zpow_le_roundMag (le_refl _) h
      rw [mul_fin_fin]
      rcases round_cases (xor s t) (m * n) with e | e <;> rw [e]
      · show ¬ roundMag (m * n) = 0
        intro h0
        rw [h0] at hr
        linarith
      · exact fun h => h

theorem rne_eq_of_lt {r : ℝ} {n : ℤ} (h1 : (n : ℝ) ≤ r) (h2 : r < n + 1 / 2) : rne r = n := by
  have hf : ⌊r⌋ = n := by
    rw [Int.floor_eq_iff]
    constructor
    · exact h1
    · linarith
  unfold rne
  rw [hf, if_pos (by linarith)]

/-- The product `M_PI * beta` at `beta = 2^-1074` is `3 * 2^-1074`. -/
theorem M_PI_mul_min : M_PI * fin false ((2 : ℝ) ^ (-1074 : ℤ))
    = fin false (3 * (2 : ℝ) ^ (-1074 : ℤ)) := by
  unfold M_PI
  rw [mul_fin_fin]
  have hq0 : (0 : ℝ) < 884279719003555 / 2 ^ 48 * (2 : ℝ) ^ (-1074 : ℤ) := by positivity
  have hq1 : (884279719003555 / 2 ^ 48 * (2 : ℝ) ^ (-1074 : ℤ)) < (2 : ℝ) ^ (-1021 : ℤ) := by
    have h4 : (884279719003555 / 2 ^ 48 : ℝ) < (2 : ℝ) ^ (2 : ℤ) := by norm_num
    have h5 : (2 : ℝ) ^ (2 : ℤ) * (2 : ℝ) ^ (-1074 : ℤ) ≤ (2 : ℝ) ^ (-1021 : ℤ) := by
      rw [← zpow_add₀ (by norm_num)]
      exact zpow_le_zpow_right₀ (by norm_num) (by norm_num)
    calc (884279719003555 / 2 ^ 48 * (2 : ℝ) ^ (-1074 : ℤ))
        < (2 : ℝ) ^ (2 : ℤ) * (2 : ℝ) ^ (-1074 : ℤ) := by gcongr
      _ ≤ (2 : ℝ) ^ (-1021 : ℤ) := h5
  have hm : roundMag (884279719003555 / 2 ^ 48 * (2 : ℝ) ^ (-1074 : ℤ))
      = 3 * (2 : ℝ) ^ (-1074 : ℤ) := by
    rw [roundMag_subnormal hq0 hq1]
    have hc : 884279719003555 / 2 ^ 48 * (2 : ℝ) ^ (-1074 : ℤ) * (2 : ℝ) ^ (1074 : ℤ)
        = 884279719003555 / 2 ^ 48 := by
      rw [mul_assoc, ← zpow_add₀ (by norm_num)]
      norm_num
    rw [hc, @rne_eq_of_lt _ 3 (by norm_num) (by norm_num)]
    norm_num
  have hmax : 3 * (2 : ℝ) ^ (-1074 : ℤ) ≤ DBL_MAX := by
    have : (2 : ℝ) ^ (-1074 : ℤ) ≤ 2 ^ (-2 : ℤ) := zpow_le_zpow_right₀ (by norm_num) (by norm_num)
    have h1 := one_le_DBL_MAX
    have h2 : (2 : ℝ) ^ (-2 : ℤ) = 1 / 4 := by norm_num
    rw [h2] at this
    have h3 : 3 * (2 : ℝ) ^ (-1074 : ℤ) ≤ 3 * (1 / 4) :=
      mul_le_mul_of_nonneg_left this (by norm_num)
    exact le_trans h3 (le_trans (by norm_num) h1)
  rw [Double.round, hm, if_pos hmax]
  rfl

/-- The magnitude of the sample proton mass lies between `2^-80` and `2^-70`. -/
theorem cgs_mass_proton : ∃ μ : ℝ, cgs.CONST_CGSM_MASS_PROTON = fin false μ ∧
    (2 : ℝ) ^ (-80 : ℤ) ≤ μ ∧ μ ≤ (2 : ℝ) ^ (-70 : ℤ) := by
  have hb : roundMag (1.67262158e-24 : ℝ) ≤ (2 : ℝ) ^ (-70 : ℤ) :=
    roundMag_le_two_zpow (by norm_num) (by norm_num) (by norm_num)
  have ha : (2 : ℝ) ^ (-80 : ℤ) ≤ roundMag (1.67262158e-24 : ℝ) :=
    two_zpow_le_roundMag (by norm_num) (by norm_num)
  refine ⟨roundMag (1.67262158e-24 : ℝ), ?_, ha, hb⟩
  show Double.round false (1.67262158e-24 : ℝ) = _
  rw [Double.round, if_pos]
  exact le_trans hb (le_trans (zpow_le_one_of_nonpos₀ (by norm_num) (by norm_num))
    one_le_DBL_MAX)

/-- The divisor `M_PI * beta * m_p` of branch 20 is zero at `beta = 2^-1074`. -/
theorem divisor_underflow :
    (M_PI * fin false ((2 : ℝ) ^ (-1074 : ℤ)) * cgs.CONST_CGSM_MASS_PROTON).IsZero := by
  obtain ⟨μ, hμ, h80, h1⟩ := cgs_mass_proton
  have h0 : 0 ≤ μ := le_trans (by positivity) h80
  rw [M_PI_mul_min, hμ, mul_fin_fin]
  have hq : 3 * (2 : ℝ) ^ (-1074 : ℤ) * μ ≤ (2 : ℝ) ^ (-1075 : ℤ) := by
    have h2 : (3 : ℝ) * (2 : ℝ) ^ (-70 : ℤ) ≤ (2 : ℝ) ^ (-1 : ℤ) := by norm_num
    have h3 : (2 : ℝ) ^ (-1075 : ℤ) = (2 : ℝ) ^ (-1074 : ℤ) * (2 : ℝ) ^ (-1 : ℤ) := by
      rw [← zpow_add₀ (by norm_num)]
      norm_num
    rw [h3]
    have hp : (0 : ℝ) < (2 : ℝ) ^ (-1074 : ℤ) := by positivity
    nlinarith
  rw [Double.round, roundMag_tiny (by positivity) hq, if_pos DBL_MAX_nonneg]
  rfl

/-- C15, as stated, fails on doubles: for reaction type 20 with `tgas = 10 > 0`
and `beta = 2^-1074 ≠ 0` the divisor `M_PI * beta * m_p` underflows to zero, so
the division has a zero divisor. -/
theorem rate_checked_division_error_underflow :
    (20 : Int) ∈ divisionCheckedTypes ∧ (10 : Double).Pos ∧
    ¬ (fin false ((2 : ℝ) ^ (-1074 : ℤ))).IsZero ∧
    rate_checked crlibm cgs 1 (fin false ((2 : ℝ) ^ (-1074 : ℤ))) 100 20 0 0 10 10 1 1 1
      = .error .divisionByZero := by
  refine ⟨by simp [divisionCheckedTypes], ?_, ?_, ?_⟩
  · show (false = false) ∧ (0 : ℝ) < ((10 : ℕ) : ℝ)
    norm_num
  · show ¬ (2 : ℝ) ^ (-1074 : ℤ) = 0
    positivity
  · simp only [rate_checked, bind, Except.bind, checked_div_of_zero _ divisor_underflow]

/-- C15, amended: on doubles, for reaction types 0..14 and 23 and `tgas > 0` no
division of `rate` has a zero divisor (the divisors are 300 and `tgas`); for
reaction type 20 the divisor is the double product `M_PI * beta * m_p`, and no
division has a zero divisor when that product does not underflow to zero (the
exact magnitude of `(M_PI * beta) * m_p`, with `M_PI * beta` the rounded
product, is at least `2^-1074`, the smallest positive double).
Then the instrumented function returns the value `rate` returns.  For these
types a zero divisor occurs exactly when the type is an Arrhenius one and `tgas`
is zero, or the type is 20 and `M_PI * beta * m_p` is zero. -/
theorem rate_checked_no_division_error (L : Libm) (c : PhysConst)
    (alpha beta gamm : Double) (reaction_type reaction_no : Int)
    (av tgas tdust chi cosmic grain_size : Double)
    (htype : reaction_type ∈ divisionCheckedTypes) (htgas : tgas.Pos)
    (hbeta : reaction_type = 20 →
      (2 : ℝ) ^ (-1074 : ℤ) ≤ (M_PI * beta).mag * c.CONST_CGSM_MASS_PROTON.mag) :
    rate_checked L c alpha beta gamm reaction_type reaction_no av tgas tdust chi cosmic
        grain_size ≠ .error .divisionByZero ∧
    (∃ k : Double,
      rate_checked L c alpha beta gamm reaction_type reaction_no av tgas tdust chi cosmic
          grain_size = .ok k ∧
      rate L c alpha beta gamm reaction_type reaction_no av tgas tdust chi cosmic
          grain_size = .ok k) ∧
    (∀ tgas2 beta2 : Double,
      rate_checked L c alpha beta2 gamm reaction_type reaction_no av tgas2 tdust chi cosmic
          grain_size = .error .divisionByZero ↔
        (reaction_type ∈ arrheniusTypes ∧ tgas2.IsZero) ∨
        (reaction_type = 20 ∧ (M_PI * beta2 * c.CONST_CGSM_MASS_PROTON).IsZero)) := by
  have ht : ¬ tgas.IsZero := not_isZero_of_pos htgas
  have h300 : ∀ x : Double, checked_div x 300 = .ok (x / 300) :=
    fun x => checked_div_of_not_zero x not_isZero_300
  rcases divisionChecked_cases reaction_type htype with h | h | ha | h | h | h
  · subst h
    refine ⟨?_, ⟨alpha * L.pow (tgas / 300) beta * GAS_DUST_NUMBER_RATIO, ?_, ?_⟩, ?_⟩
    · simp [rate_checked, h300, bind, Except.bind]
    · simp [rate_checked, h300, bind, Except.bind]
    · simp only [rate]
    · intro tgas2 beta2
      simp [rate_checked, h300, bind, Except.bind, arrheniusTypes]
  · subst h
    refine ⟨?_, ⟨alpha * cosmic, ?_, ?_⟩, ?_⟩
    · simp [rate_checked]
    · simp [rate_checked]
    · simp only [rate]
    · intro tgas2 beta2
      simp [rate_checked, arrheniusTypes]
  · have hne : reaction_type ≠ 20 := by
      intro h
      subst h
      simp [arrheniusTypes] at ha
    refine ⟨?_, ⟨alpha * L.pow (tgas / 300) beta * L.exp (-gamm / tgas), ?_, ?_⟩, ?_⟩
    · rw [rate_checked_ieee_arrhenius_eq _ _ _ _ _ _ _ _ _ _ _ _ _ ha,
        checked_div_of_not_zero _ ht]
      simp [bind, Except.bind]
    · rw [rate_checked_ieee_arrhenius_eq _ _ _ _ _ _ _ _ _ _ _ _ _ ha,
        checked_div_of_not_zero _ ht]
      simp [bind, Except.bind]
    · exact rate_ieee_arrhenius_eq _ _ _ _ _ _ _ _ _ _ _ _ _ ha
    · intro tgas2 beta2
      rw [rate_checked_ieee_arrhenius_eq _ _ _ _ _ _ _ _ _ _ _ _ _ ha]
      by_cases h2 : tgas2.IsZero
      · rw [checked_div_of_zero _ h2]
        simp [bind, Except.bind, ha, h2]
      · rw [checked_div_of_not_zero _ h2]
        simp [bind, Except.bind, h2, hne]
  · subst h
    refine ⟨?_, ⟨chi * alpha * L.exp (-gamm * av), ?_, ?_⟩, ?_⟩
    · simp [rate_checked]
    · simp [rate_checked]
    · simp only [rate]
    · intro tgas2 beta2
      simp [rate_checked, arrheniusTypes]
  · subst h
    have h2 := hbeta rfl
    have hd : ¬ (M_PI * beta * c.CONST_CGSM_MASS_PROTON).IsZero := mul_not_isZero h2
    refine ⟨?_, ⟨M_PI * L.pow grain_size 2 * alpha *
      L.pow (8 * c.CONST_CGSM_BOLTZMANN * tgas / (M_PI * beta * c.CONST_CGSM_MASS_PROTON))
        0.5, ?_, ?_⟩, ?_⟩
    · simp [rate_checked, checked_div_of_not_zero _ hd, bind, Except.bind]
    · simp [rate_checked, checked_div_of_not_zero _ hd, bind, Except.bind]
    · simp only [rate]
    · intro tgas2 beta2
      by_cases h3 : (M_PI * beta2 * c.CONST_CGSM_MASS_PROTON).IsZero
      · simp [rate_checked, h3, checked_div_of_zero _ h3, bind, Except.bind, arrheniusTypes]
      · simp [rate_checked, h3, checked_div_of_not_zero _ h3, bind, Except.bind,
          arrheniusTypes]
  · subst h
    refine ⟨?_, ⟨chi * L.exp (-2 * av) * alpha * M_PI * L.pow grain_size 2, ?_, ?_⟩, ?_⟩
    · simp [rate_checked]
    · simp [rate_checked]
    · simp only [rate]
    · intro tgas2 beta2
      simp [rate_checked, arrheniusTypes]

theorem zpow_1024 : (2 : ℝ) ^ (1024 : ℤ) = (2 : ℝ) ^ (1024 : ℕ) := by
  rw [← zpow_natCast]
  rfl

theorem DBL_MAX_lt : DBL_MAX < (2 : ℝ) ^ (1024 : ℤ) := by
  have h : (2 : ℝ) ^ (1024 : ℤ) = 2 ^ 53 * 2 ^ 971 := by
    rw [zpow_1024, ← pow_add]
  rw [h, DBL_MAX]
  have : (0 : ℝ) < 2 ^ 971 := by positivity
  linarith

/-- A magnitude of at least `2^1024` overflows to an infinity. -/
theorem round_overflow (s : Bool) {q : ℝ} (h : (2 : ℝ) ^ (1024 : ℤ) ≤ q) :
    Double.round s q = inf s := by
  have hr : (2 : ℝ) ^ (1024 : ℤ) ≤ roundMag q := two_zpow_le_roundMag (by norm_num) h
  rw [Double.round, if_neg]
  intro hle
  have := DBL_MAX_lt
  linarith

theorem isRepr_natCast {n : ℕ} (h : n < 2 ^ 53) : IsRepr (n : ℝ) := by
  refine ⟨n, 52, by positivity, by exact_mod_cast h, by norm_num, ?_⟩
  simp

theorem natCast_le_DBL_MAX {n : ℕ} (h : n < 2 ^ 53) : (n : ℝ) ≤ DBL_MAX := by
  have h1 : (n : ℝ) ≤ 2 ^ 53 - 1 := by
    have : n + 1 ≤ 2 ^ 53 := h
    have : ((n + 1 : ℕ) : ℝ) ≤ ((2 ^ 53 : ℕ) : ℝ) := by exact_mod_cast this
    push_cast at this
    linarith
  have h2 : (1 : ℝ) ≤ 2 ^ 971 := one_le_pow₀ (by norm_num)
  have h3 : (0 : ℝ) ≤ 2 ^ 53 - 1 := by norm_num
  rw [DBL_MAX]
  nlinarith

theorem round_natCast (s : Bool) {n : ℕ} (h : n < 2 ^ 53) :
    Double.round s (n : ℝ) = fin s n :=
  round_of_isRepr s (isRepr_natCast h) (natCast_le_DBL_MAX h)

theorem div_fin_fin (s t : Bool) (m : ℝ) {n : ℝ} (hn : n ≠ 0) :
    (fin s m / fin t n : Double) = Double.round (xor s t) (m / n) := by
  show Double.div (fin s m) (fin t n) = _
  simp [Double.div, hn]

theorem neg_fin (s : Bool) (m : ℝ) : (-(fin s m) : Double) = fin (!s) m := rfl

theorem nan_mul (x : Double) : (nan : Double) * x = nan := by
  cases x <;> rfl

theorem mul_nan (x : Double) : x * (nan : Double) = nan := by
  cases x <;> rfl

/-- The exponential of `10^6` exceeds every finite double. -/
theorem exp_million : (2 : ℝ) ^ (1024 : ℤ) ≤ Real.exp 1000000 := by
  have h1 : (2 : ℝ) ≤ Real.exp 1 := by
    have := Real.exp_one_gt_d9
    linarith
  have h2 : Real.exp 1000000 = Real.exp 1 ^ 1000000 := by
    rw [← Real.exp_nat_mul]
    norm_num
  rw [h2, zpow_1024]
  calc (2 : ℝ) ^ 1024 ≤ 2 ^ 1000000 := pow_le_pow_right₀ (by norm_num) (by norm_num)
    _ ≤ Real.exp 1 ^ 1000000 := pow_le_pow_left₀ (by norm_num) h1 _

/-- The two sample header constants are positive doubles. -/
theorem cgs_pos : cgs.CONST_CGSM_BOLTZMANN.Pos ∧ cgs.CONST_CGSM_MASS_PROTON.Pos := by
  have hk : (2 : ℝ) ^ (-60 : ℤ) ≤ roundMag (1.3806504e-16 : ℝ) :=
    two_zpow_le_roundMag (by norm_num) (by norm_num)
  have hm : (2 : ℝ) ^ (-80 : ℤ) ≤ roundMag (1.67262158e-24 : ℝ) :=
    two_zpow_le_roundMag (by norm_num) (by norm_num)
  constructor
  · show (Double.round false (1.3806504e-16 : ℝ)).Pos
    rcases round_cases false (1.3806504e-16 : ℝ) with e | e <;> rw [e]
    · refine ⟨rfl, ?_⟩
      have : (0 : ℝ) < (2 : ℝ) ^ (-60 : ℤ) := by positivity
      linarith
    · rfl
  · show (Double.round false (1.67262158e-24 : ℝ)).Pos
    rcases round_cases false (1.67262158e-24 : ℝ) with e | e <;> rw [e]
    · refine ⟨rfl, ?_⟩
      have : (0 : ℝ) < (2 : ℝ) ^ (-80 : ℤ) := by positivity
      linarith
    · rfl

/-- C17, as stated, fails on doubles: reaction type 2 with `alpha = 0`,
`beta = 1`, `gamma = -10^6`, `tgas = 1` meets every precondition, and the value
returned is a NaN (`0 * ∞`, as `exp (10^6)` overflows), which is not `≥ 0`. -/
theorem rate_nan_under_preconditions :
    (2 : Int) ∈ recognisedTypes ∧
    (fin false 0).Nonneg ∧ (1 : Double).Nonneg ∧ (1 : Double).Nonneg ∧
    (1 : Double).Pos ∧ (1 : Double).Pos ∧
    rate crlibm cgs (fin false 0) 1 (fin true 1000000) 2 0 0 1 10 1 1 1 = .ok nan ∧
    ¬ (nan : Double).Nonneg := by
  have hone : (1 : Double) = fin false 1 := by
    show fin false ((1 : ℕ) : ℝ) = _
    norm_num
  have hpos1 : (1 : Double).Pos := by
    rw [hone]
    exact ⟨rfl, one_pos⟩
  have hq : (-(fin true 1000000 : Double)) / 1 = fin false 1000000 := by
    rw [neg_fin, hone, div_fin_fin _ _ _ one_ne_zero, div_one]
    have := round_natCast false (show 1000000 < 2 ^ 53 by norm_num)
    simpa using this
  have he : crlibm.exp (fin false 1000000) = inf false := by
    show Double.round false (Real.exp (sval false 1000000)) = inf false
    exact round_overflow false (by simpa [sval] using exp_million)
  have hz : ∀ p : Double, (fin false 0 * p) * inf false = nan := by
    intro p
    cases p with
    | nan => rfl
    | inf t =>
      show Double.mul (Double.mul (fin false 0) (inf t)) (inf false) = nan
      simp [Double.mul]
    | fin t n =>
      rw [mul_fin_fin, zero_mul, round_zero]
      show Double.mul (fin _ 0) (inf false) = nan
      simp [Double.mul]
  refine ⟨by simp [recognisedTypes], nonneg_fin_zero false,
    nonneg_of_signClear signClear_one, nonneg_of_signClear signClear_one, hpos1, hpos1,
    ?_, fun h => h⟩
  simp only [rate, hq, he, hz]

/-- C9, amended: on doubles, for every recognised reaction type, if `alpha`,
`chi` and `cosmic` are `≥ 0` and `tgas > 0` (and, for reaction type 20, `beta`
and the Boltzmann and proton-mass constants are `> 0`), and the C library
follows the sign rules of Annex F, then `rate` returns a value that is `≥ 0` or
a NaN: it is never negative. -/
theorem rate_nonneg_or_nan_of_nonneg_inputs (L : Libm) (hL : L.SignRules) (c : PhysConst)
    (alpha beta gamm : Double) (reaction_type reaction_no : Int)
    (av tgas tdust chi cosmic grain_size : Double)
    (htype : reaction_type ∈ recognisedTypes)
    (halpha : alpha.Nonneg) (hchi : chi.Nonneg) (hcosmic : cosmic.Nonneg)
    (htgas : tgas.Pos)
    (hdep : reaction_type = 20 →
      beta.Pos ∧ c.CONST_CGSM_BOLTZMANN.Pos ∧ c.CONST_CGSM_MASS_PROTON.Pos) :
    ∃ k : Double,
      rate L c alpha beta gamm reaction_type reaction_no av tgas tdust chi cosmic
        grain_size = .ok k ∧ (k = nan ∨ k.Nonneg) :=
  rate_nonneg_or_nan_aux L hL c alpha beta gamm reaction_type reaction_no av tgas tdust chi
    cosmic grain_size htype halpha hchi hcosmic htgas hdep

theorem pos_ofNat {n : ℕ} (h : n ≠ 0) : (OfNat.ofNat n : Double).Pos :=
  ⟨rfl, by exact_mod_cast Nat.pos_of_ne_zero h⟩

/-- Witness of C9 (amended): reaction type 20 with `alpha = 1`, `beta = 28`,
`tgas = 10`. -/
theorem rate_nonneg_or_nan_of_nonneg_inputs_witness :
    ∃ k : Double,
      rate crlibm cgs 1 28 100 20 0 1 10 10 1 1 1 = .ok k ∧ (k = nan ∨ k.Nonneg) :=
  rate_nonneg_or_nan_of_nonneg_inputs crlibm crlibm_signRules cgs 1 28 100 20 0 1 10 10 1 1 1
    (by simp [recognisedTypes]) (nonneg_of_signClear signClear_one)
    (nonneg_of_signClear signClear_one) (nonneg_of_signClear signClear_one)
    (pos_ofNat (by norm_num)) (fun _ => ⟨pos_ofNat (by norm_num), cgs_pos.1, cgs_pos.2⟩)

/-- C17, amended: on doubles, for every recognised reaction type, if `alpha`,
`chi` and `cosmic` are `≥ 0`, `tgas > 0` and `beta > 0` (`gamma`, `av`, `tdust`
and `grain_size` being arbitrary, the Boltzmann and proton-mass constants
positive), and the C library follows the sign rules of Annex F, then `rate`
returns a value that is `≥ 0` or a NaN. -/
theorem rate_nonneg_or_nan_physical (L : Libm) (hL : L.SignRules) (c : PhysConst)
    (hk : c.CONST_CGSM_BOLTZMANN.Pos) (hm : c.CONST_CGSM_MASS_PROTON.Pos)
    (alpha beta gamm : Double) (reaction_type reaction_no : Int)
    (av tgas tdust chi cosmic grain_size : Double)
    (htype : reaction_type ∈ recognisedTypes)
    (halpha : alpha.Nonneg) (hchi : chi.Nonneg) (hcosmic : cosmic.Nonneg)
    (htgas : tgas.Pos) (hbeta : beta.Pos) :
    ∃ k : Double,
      rate L c alpha beta gamm reaction_type reaction_no av tgas tdust chi cosmic
        grain_size = .ok k ∧ (k = nan ∨ k.Nonneg) :=
  rate_nonneg_or_nan_aux L hL c alpha beta gamm reaction_type reaction_no av tgas tdust chi
    cosmic grain_size htype halpha hchi hcosmic htgas (fun _ => ⟨hbeta, hk, hm⟩)

/-- Witness of C17 (amended): reaction type 23 with `alpha = 1`, `beta = 28`,
`tgas = 10`, `chi = 1`, `av = 2`. -/
theorem rate_nonneg_or_nan_physical_witness :
    ∃ k : Double,
      rate crlibm cgs 1 28 100 23 0 2 10 10 1 1 1 = .ok k ∧ (k = nan ∨ k.Nonneg) :=
  rate_nonneg_or_nan_physical crlibm crlibm_signRules cgs cgs_pos.1 cgs_pos.2
    1 28 100 23 0 2 10 10 1 1 1
    (by simp [recognisedTypes]) (nonneg_of_signClear signClear_one)
    (nonneg_of_signClear signClear_one) (nonneg_of_signClear signClear_one)
    (pos_ofNat (by norm_num)) (pos_ofNat (by norm_num))

/-- The product `(M_PI * 28) * m_p` with the sample proton mass does not
underflow. -/
theorem divisor_28_normal :
    (2 : ℝ) ^ (-1074 : ℤ) ≤ (M_PI * (28 : Double)).mag * cgs.CONST_CGSM_MASS_PROTON.mag := by
  obtain ⟨μ, hμ, h80, h70⟩ := cgs_mass_proton
  have hp : (2 : ℝ) ^ (6 : ℤ) ≤ roundMag (884279719003555 / 2 ^ 48 * 28) :=
    two_zpow_le_roundMag (by norm_num) (by norm_num)
  have hp2 : roundMag (884279719003555 / 2 ^ 48 * 28) ≤ (2 : ℝ) ^ (7 : ℤ) :=
    roundMag_le_two_zpow (by norm_num) (by norm_num) (by norm_num)
  have h7 : (2 : ℝ) ^ (7 : ℤ) ≤ DBL_MAX := by
    have := one_le_DBL_MAX
    have h1024 := DBL_MAX_lt
    unfold DBL_MAX at *
    norm_num
  have e1 : M_PI * (28 : Double) = fin false (roundMag (884279719003555 / 2 ^ 48 * 28)) := by
    unfold M_PI
    rw [ofNat_eq, mul_fin_fin]
    push_cast
    rw [Double.round, if_pos (le_trans hp2 h7)]
    rfl
  rw [e1, hμ]
  simp only [Double.mag]
  have h74 : (2 : ℝ) ^ (-1074 : ℤ) ≤ (2 : ℝ) ^ (6 : ℤ) * (2 : ℝ) ^ (-80 : ℤ) := by
    rw [← zpow_add₀ (by norm_num)]
    exact zpow_le_zpow_right₀ (by norm_num) (by norm_num)
  have h80pos : (0 : ℝ) < (2 : ℝ) ^ (-80 : ℤ) := by positivity
  calc (2 : ℝ) ^ (-1074 : ℤ) ≤ (2 : ℝ) ^ (6 : ℤ) * (2 : ℝ) ^ (-80 : ℤ) := h74
    _ ≤ roundMag (884279719003555 / 2 ^ 48 * 28) * μ := by gcongr

/-- Witness of C15 (amended): reaction type 20 with `beta = 28`, `tgas = 10`. -/
theorem rate_checked_no_division_error_witness :
    rate_checked crlibm cgs 1 28 100 20 0 1 10 10 1 1 1 ≠ .error .divisionByZero :=
  (rate_checked_no_division_error crlibm cgs 1 28 100 20 0 1 10 10 1 1 1
    (by simp [divisionCheckedTypes]) (pos_ofNat (by norm_num))
    (fun _ => divisor_28_normal)).1

/-- The outcome of `rate` does not depend on the argument `reaction_no`: for
every library, every value of the header constants and every choice of the
other arguments, two calls that differ only in `reaction_no` have the same
outcome (the same value, or both the failure), on doubles and over the reals. -/
theorem rate_independent_of_reaction_no (L : Libm) (c : PhysConst)
    (alpha beta gamm : Double) (reaction_type no1 no2 : Int)
    (av tgas tdust chi cosmic grain_size : Double)
    (c' : Rates.PhysConst) (alpha' beta' gamm' av' tgas' tdust' chi' cosmic' grain_size' : ℝ) :
    rate L c alpha beta gamm reaction_type no1 av tgas tdust chi cosmic grain_size
      = rate L c alpha beta gamm reaction_type no2 av tgas tdust chi cosmic grain_size ∧
    Rates.rate c' alpha' beta' gamm' reaction_type no1 av' tgas' tdust' chi' cosmic' grain_size'
      = Rates.rate c' alpha' beta' gamm' reaction_type no2 av' tgas' tdust' chi' cosmic'
          grain_size' := by
  constructor
  · simp only [rate]
  · simp only [Rates.rate]

end IEEE

end Rates
